import Mathlib

/-!
# NPC controller of `d2core/d2map/d2mapentity/npc.go`

A shallow embedding of the NPC entity: the cyclic path cursor (`Path`, `NextPath`,
`SetPaths`), the per-frame `Advance`, the arrival callback `next`, the direction
callback `rotate` and the constructor `CreateNPC`.

The composite (package `d2asset`), the embedded `mapEntity`, the constants of `d2enum`
and the data tables are declared outside `npc.go`; they enter the embedding as
parameters (`CompositeOps`, `MapEntityOps`, `D2Enum`, `Assets`).  A Go panic (index out
of range, nil dereference) is the result `none`.

Go `int` is embedded as `Int`.  The only arithmetic is `v.path++` and
`3 + rand.Intn(5)`; an index that would overflow is already out of range, so both the
wrapped and the unwrapped value make the following slice access panic.
-/

namespace D2MapEntity

/-! ## Data model -/

/-- Error values returned by the external collaborators. -/
abbrev Error := String

/-- Waypoint `d2common.Path`: a position and the action code attached to it. -/
structure d2common.Path (P : Type) where
  Position : P
  Action : Int
deriving DecidableEq, Repr

/-- Stats record `d2datadict.MonStatsRecord`, restricted to the fields `npc.go` reads. -/
structure MonStatsRecord where
  ExtraDataKey : String
  AnimationDirectoryToken : String
  SpeedBase : Int
  IsInteractable : Bool
  NameString : String
deriving DecidableEq, Repr

/-- Extended stats record `d2datadict.MonStats2Record`, restricted to the fields
`npc.go` reads. -/
structure MonStats2Record where
  EquipmentOptions : List (List String)
  BaseWeaponClass : String
deriving DecidableEq, Repr

/-- The struct `NPC`.  `C` is the state of the composite behind the pointer `composite`,
`M` the state of the embedded `mapEntity`, `P` the type of positions. -/
structure NPC (C M P : Type) where
  mapEntity : M
  Paths : List (d2common.Path P)
  name : String
  composite : C
  action : Int
  path : Int
  repetitions : Int
  monstatRecord : Option MonStatsRecord
  monstatEx : Option MonStats2Record
  HasPaths : Bool
  isDone : Bool

def minAnimationRepetitions : Int := 3

def maxAnimationRepetitions : Nat := 5

/-! ## External collaborators, taken as parameters -/

/-- The constants of package `d2enum` that `npc.go` names, with `modeString` for
`MonsterAnimationMode.String`.  Both enumerations are Go integer types. -/
structure D2Enum where
  MonsterAnimationModeNeutral : Int
  MonsterAnimationModeWalk : Int
  MonsterAnimationModeSkill1 : Int
  modeString : Int → String
  NPCActionInvalid : Int
  NPCAction1 : Int
  NPCAction2 : Int
  NPCAction3 : Int
  NPCActionSkill1 : Int
  ObjectTypeCharacter : Int

/-- The methods of `*d2asset.Composite` that `npc.go` calls.  A method that returns an
error yields the composite state it leaves behind together with the error, if any. -/
structure CompositeOps (C T : Type) where
  SetMode : C → Int → String → C × Option Error
  Equip : C → List String → C × Option Error
  Advance : C → T → C × Option Error
  GetPlayedCount : C → Int
  GetAnimationMode : C → String
  GetWeaponClass : C → String
  GetDirection : C → Int
  SetDirection : C → Int → C

/-- The completion hooks `npc.go` hands to `setTarget`: only the method value `v.next`. -/
inductive DoneHook where
  | next
deriving DecidableEq, Repr

/-- A callback the motion subsystem makes into the NPC: the registered completion hook,
or the directioner (registered as `v.rotate` by `CreateNPC`) with a facing. -/
inductive Callback where
  | done (hook : DoneHook)
  | directioner (direction : Int)
deriving DecidableEq, Repr

/-- The methods of the embedded `mapEntity` that `npc.go` calls.  `Step` and `setTarget`
call back into the NPC: each yields the callbacks it makes, in order, every one paired
with the motion state in force when it is made, and the motion state it ends in.
`setTarget` stores the target and the hook and reports the new heading, so its callbacks
are directioner calls; completion hooks run from `Step`. -/
structure MapEntityOps (M P T : Type) where
  atTarget : M → Bool
  Step : M → T → List (M × Callback) × M
  setTarget : M → P → DoneHook → List (M × Int) × M
  SetSpeed : M → Int → M

/-- The package-level functions and tables `CreateNPC` consults. -/
structure Assets (C M : Type) where
  newMapEntity : Int → Int → M
  MonStats2 : String → Option MonStats2Record
  LoadComposite : Int → String → String → Option C × Option Error
  PaletteUnits : String
  TranslateString : String → String

/-- The process-global source of `math/rand`: the raw values it will hand out and how
many have been drawn. -/
structure Rand where
  raw : Nat → Nat
  pos : Nat

/-- Model of `rand.Intn(n)` for `n > 0`: a value in `[0, n)`, and the source moved on. -/
def Rand.Intn (g : Rand) (n : Nat) : Nat × Rand :=
  (g.raw g.pos % n, { g with pos := g.pos + 1 })

/-- A call the controller issues to a collaborator, with the composite state it is
issued on. -/
inductive Call (C P : Type) where
  | SetMode (before : C) (mode : Int) (weaponClass : String)
  | SetDirection (before : C) (direction : Int)
  | setTarget (position : P) (done : DoneHook)

/-! ## Path cursor -/

/-- Go slice indexing `xs[i]` with an `int` index; `none` is the out-of-range panic. -/
def index {α : Type} (xs : List α) (i : Int) : Option α :=
  if 0 ≤ i then xs[i.toNat]? else none

variable {C M P T : Type}

/-- Method `func (v *NPC) Path() d2common.Path`. -/
def NPC.Path (v : NPC C M P) : Option (d2common.Path P) :=
  index v.Paths v.path

/-- Method `func (v *NPC) NextPath() d2common.Path`: the updated NPC and the returned waypoint. -/
def NPC.NextPath (v : NPC C M P) : Option (NPC C M P × d2common.Path P) :=
  let v1 := { v with path := v.path + 1 }
  let v2 := if v1.path = (v1.Paths.length : Int) then { v1 with path := 0 } else v1
  match index v2.Paths v2.path with
  | none => none
  | some p => some (v2, p)

/-- Method `func (v *NPC) SetPaths(paths []d2common.Path)`. -/
def NPC.SetPaths (v : NPC C M P) (paths : List (d2common.Path P)) : NPC C M P :=
  { v with Paths := paths, HasPaths := decide (paths.length > 0), isDone := true }

/-- The waypoints returned by `k` successive `NextPath` calls, with the NPC they leave. -/
def NPC.NextPathN : Nat → NPC C M P → Option (NPC C M P × List (d2common.Path P))
  | 0, v => some (v, [])
  | k + 1, v =>
    match v.NextPath with
    | none => none
    | some (v1, p) =>
      match NPC.NextPathN k v1 with
      | none => none
      | some (v2, ps) => some (v2, p :: ps)

/-! ## Controller -/

/-- Method `func (v *NPC) wait() bool`. -/
def NPC.wait (co : CompositeOps C T) (v : NPC C M P) : Bool :=
  v.isDone && decide (co.GetPlayedCount v.composite > v.repetitions)

/-- Method `func (v *NPC) next()`: the updated NPC, the random source after the draw, and the
collaborator calls issued. -/
def NPC.next (E : D2Enum) (co : CompositeOps C T) (v : NPC C M P) (g : Rand) :
    NPC C M P × Rand × List (Call C P) :=
  let v := { v with isDone := true }
  let (r, g) := g.Intn maxAnimationRepetitions
  let v := { v with repetitions := minAnimationRepetitions + (r : Int) }
  let (newAnimationMode, v) :=
    if v.action = E.NPCActionSkill1 then
      (E.MonsterAnimationModeSkill1, { v with repetitions := 0 })
    else if v.action = E.NPCActionInvalid ∨ v.action = E.NPCAction1 ∨
        v.action = E.NPCAction2 ∨ v.action = E.NPCAction3 then
      (E.MonsterAnimationModeNeutral, { v with repetitions := 0 })
    else
      (E.MonsterAnimationModeNeutral, { v with repetitions := 0 })
  if co.GetAnimationMode v.composite ≠ E.modeString newAnimationMode then
    let weaponClass := co.GetWeaponClass v.composite
    let (c, err) := co.SetMode v.composite newAnimationMode weaponClass
    let calls := [Call.SetMode v.composite newAnimationMode weaponClass]
    match err with
    | some _ => ({ v with composite := c }, g, calls)
    | none => ({ v with composite := c }, g, calls)
  else
    (v, g, [])

/-- Method `func (v *NPC) rotate(direction int)`: the updated NPC and the collaborator calls
issued. -/
def NPC.rotate (E : D2Enum) (co : CompositeOps C T) (mo : MapEntityOps M P T)
    (v : NPC C M P) (direction : Int) : NPC C M P × List (Call C P) :=
  let newMode :=
    if !mo.atTarget v.mapEntity then E.MonsterAnimationModeWalk
    else E.MonsterAnimationModeNeutral
  let (v, calls, failed) :=
    if E.modeString newMode ≠ co.GetAnimationMode v.composite then
      let weaponClass := co.GetWeaponClass v.composite
      let (c, err) := co.SetMode v.composite newMode weaponClass
      ({ v with composite := c }, [Call.SetMode v.composite newMode weaponClass], err.isSome)
    else
      (v, [], false)
  if failed then
    (v, calls)
  else if co.GetDirection v.composite ≠ direction then
    ({ v with composite := co.SetDirection v.composite direction },
      calls ++ [Call.SetDirection v.composite direction])
  else
    (v, calls)

/-- One callback of the motion subsystem, made while the motion state is `m`: the
completion hook `v.next`, or the directioner `v.rotate`. -/
def NPC.dispatch (E : D2Enum) (co : CompositeOps C T) (mo : MapEntityOps M P T)
    (v : NPC C M P) (g : Rand) (m : M) : Callback → NPC C M P × Rand × List (Call C P)
  | Callback.done DoneHook.next => NPC.next E co { v with mapEntity := m } g
  | Callback.directioner direction =>
    let (v1, calls) := NPC.rotate E co mo { v with mapEntity := m } direction
    (v1, g, calls)

/-- The callbacks of one motion-subsystem call, run in order. -/
def NPC.runCallbacks (E : D2Enum) (co : CompositeOps C T) (mo : MapEntityOps M P T) :
    NPC C M P → Rand → List (M × Callback) → NPC C M P × Rand × List (Call C P)
  | v, g, [] => (v, g, [])
  | v, g, (m, cb) :: rest =>
    let (v1, g1, calls1) := NPC.dispatch E co mo v g m cb
    let (v2, g2, calls2) := NPC.runCallbacks E co mo v1 g1 rest
    (v2, g2, calls1 ++ calls2)

/-- The promoted method `v.Step(tickTime)` of the embedded `mapEntity`. -/
def NPC.Step (E : D2Enum) (co : CompositeOps C T) (mo : MapEntityOps M P T)
    (v : NPC C M P) (g : Rand) (tickTime : T) : NPC C M P × Rand × List (Call C P) :=
  let (cbs, m) := mo.Step v.mapEntity tickTime
  let (v1, g1, calls) := NPC.runCallbacks E co mo v g cbs
  ({ v1 with mapEntity := m }, g1, calls)

/-- The promoted method `v.setTarget(p, done)` of the embedded `mapEntity`. -/
def NPC.setTarget (E : D2Enum) (co : CompositeOps C T) (mo : MapEntityOps M P T)
    (v : NPC C M P) (g : Rand) (p : P) (done : DoneHook) :
    NPC C M P × Rand × List (Call C P) :=
  let (dirs, m) := mo.setTarget v.mapEntity p done
  let (v1, g1, calls) :=
    NPC.runCallbacks E co mo v g (dirs.map (fun d => (d.1, Callback.directioner d.2)))
  ({ v1 with mapEntity := m }, g1, Call.setTarget p done :: calls)

/-- Method `func (v *NPC) Advance(tickTime float64)`; `none` is the index-out-of-range panic of
`NextPath`. -/
def NPC.Advance (E : D2Enum) (co : CompositeOps C T) (mo : MapEntityOps M P T)
    (v : NPC C M P) (g : Rand) (tickTime : T) :
    Option (NPC C M P × Rand × List (Call C P)) :=
  let (v, g, calls) := NPC.Step E co mo v g tickTime
  let (c, err) := co.Advance v.composite tickTime
  let v := { v with composite := c }
  match err with
  | some _ => some (v, g, calls)
  | none =>
    if v.HasPaths && NPC.wait co v then
      let v := { v with isDone := false }
      match v.NextPath with
      | none => none
      | some (v, path) =>
        let (v, g, calls2) := NPC.setTarget E co mo v g path.Position DoneHook.next
        some ({ v with action := path.Action }, g, calls ++ calls2)
    else
      some (v, g, calls)

/-- Function `func selectEquip(slice []string) string`. -/
def selectEquip (slice : List String) (g : Rand) : String × Rand :=
  if slice.length ≠ 0 then
    let (r, g) := g.Intn slice.length
    (slice.getD r "", g)
  else
    ("", g)

/-- The loop of `CreateNPC` over `EquipmentOptions`: slot `compType` of the array
`equipment` receives `selectEquip(opts)`. -/
def fillEquipment : List (List String) → Nat → List String → Rand → List String × Rand
  | [], _, equipment, g => (equipment, g)
  | opts :: rest, compType, equipment, g =>
    let (e, g1) := selectEquip opts g
    fillEquipment rest (compType + 1) (equipment.set compType e) g1

/-- Function `func CreateNPC(x, y int, monstat *d2datadict.MonStatsRecord, direction int)
(*NPC, error)`.  `none` is a panic (nil `monstat`, no extended record, a slot index
beyond the 16-slot array, or a nil composite); `some (Except.error e)` is the returned
error. -/
def CreateNPC (E : D2Enum) (co : CompositeOps C T) (mo : MapEntityOps M P T)
    (A : Assets C M) (x y : Int) (monstat : Option MonStatsRecord) (direction : Int)
    (g : Rand) : Option (Except Error (NPC C M P × Rand × List (Call C P))) :=
  match monstat with
  | none => none
  | some ms =>
    let monstatEx := A.MonStats2 ms.ExtraDataKey
    match monstatEx with
    | none => none
    | some ex =>
      if ex.EquipmentOptions.length > 16 then none
      else
        let (equipment, g) := fillEquipment ex.EquipmentOptions 0 (List.replicate 16 "") g
        match (A.LoadComposite E.ObjectTypeCharacter ms.AnimationDirectoryToken
            A.PaletteUnits).1 with
        | none => none
        | some c0 =>
          let (c1, err1) := co.SetMode c0 E.MonsterAnimationModeNeutral ex.BaseWeaponClass
          match err1 with
          | some e => some (Except.error e)
          | none =>
            let (c2, err2) := co.Equip c1 equipment
            match err2 with
            | some e => some (Except.error e)
            | none =>
              let m := mo.SetSpeed (A.newMapEntity x y) ms.SpeedBase
              let c3 := co.SetDirection c2 direction
              let name := if ms.IsInteractable then A.TranslateString ms.NameString else ""
              some (Except.ok
                ({ mapEntity := m, Paths := [], name := name, composite := c3, action := 0,
                   path := 0, repetitions := 0, monstatRecord := monstat,
                   monstatEx := monstatEx, HasPaths := false, isDone := false },
                 g,
                 [Call.SetMode c0 E.MonsterAnimationModeNeutral ex.BaseWeaponClass,
                  Call.SetDirection c2 direction]))

/-- Method `func (v *NPC) Selectable() bool`. -/
def NPC.Selectable (v : NPC C M P) : Bool :=
  decide (v.name ≠ "")

/-- Method `func (v *NPC) Name() string`. -/
def NPC.Name (v : NPC C M P) : String :=
  v.name

/-! ## Test doubles

Concrete collaborators on which the statements below are instantiated. -/

/-- A composite double: it records mode, weapon class, facing and played count, and can
be told to fail its mode-set or its playback advance. -/
structure FakeComposite where
  mode : String
  weaponClass : String
  direction : Int
  playedCount : Int
  failSetMode : Bool
  failAdvance : Bool
deriving DecidableEq, Repr

/-- A motion double: whether it is at its target, the target last set, and the speed. -/
structure FakeMotion where
  arrived : Bool
  target : Option (Int × Int)
  speed : Int
deriving DecidableEq, Repr

/-- The values of the `d2enum` constants: modes Neutral = 1 ("NU"), Walk = 2 ("WL"),
Skill1 = 8 ("S1"); actions Invalid = 0, 1, 2, 3, Skill1 = 4. -/
def stdEnum : D2Enum where
  MonsterAnimationModeNeutral := 1
  MonsterAnimationModeWalk := 2
  MonsterAnimationModeSkill1 := 8
  modeString := fun m => if m = 1 then "NU" else if m = 2 then "WL" else if m = 8 then "S1" else "??"
  NPCActionInvalid := 0
  NPCAction1 := 1
  NPCAction2 := 2
  NPCAction3 := 3
  NPCActionSkill1 := 4
  ObjectTypeCharacter := 1

/-- Operations of the composite double.  A mode-set restarts the played count; a
playback advance completes one more loop. -/
def fakeComposite : CompositeOps FakeComposite Nat where
  SetMode := fun c mode weaponClass =>
    if c.failSetMode then (c, some "set mode failed")
    else ({ c with mode := stdEnum.modeString mode, weaponClass := weaponClass,
                   playedCount := 0 }, none)
  Equip := fun c _ => (c, none)
  Advance := fun c _ =>
    if c.failAdvance then (c, some "advance failed")
    else ({ c with playedCount := c.playedCount + 1 }, none)
  GetPlayedCount := fun c => c.playedCount
  GetAnimationMode := fun c => c.mode
  GetWeaponClass := fun c => c.weaponClass
  GetDirection := fun c => c.direction
  SetDirection := fun c d => { c with direction := d }

/-- Operations of the motion double: `Step` runs the completion hook when at the target
and otherwise arrives; `setTarget` stores the target and reports facing 0. -/
def fakeMotion : MapEntityOps FakeMotion (Int × Int) Nat where
  atTarget := fun m => m.arrived
  Step := fun m _ =>
    if m.arrived then ([(m, Callback.done DoneHook.next)], m)
    else ([], { m with arrived := true })
  setTarget := fun m p _ =>
    ([({ m with arrived := false, target := some p }, 0)],
      { m with arrived := false, target := some p })
  SetSpeed := fun m s => { m with speed := s }

/-- Asset tables of the double: one extended record under the key "cain". -/
def fakeAssets : Assets FakeComposite FakeMotion where
  newMapEntity := fun _ _ => { arrived := true, target := none, speed := 0 }
  MonStats2 := fun key =>
    if key = "cain" then some { EquipmentOptions := [["LIT"], []], BaseWeaponClass := "HTH" }
    else none
  LoadComposite := fun _ _ _ =>
    (some { mode := "", weaponClass := "", direction := 0, playedCount := 0,
            failSetMode := false, failAdvance := false }, none)
  PaletteUnits := "units"
  TranslateString := fun s => s

/-- A random source that always hands out the same raw value. -/
def constRand (r : Nat) : Rand where
  raw := fun _ => r
  pos := 0

/-- An NPC over the doubles with the given waypoints, cursor index and pending action:
at rest at its target, idle, facing 0. -/
def sampleNPC (paths : List (d2common.Path (Int × Int))) (path action : Int) :
    NPC FakeComposite FakeMotion (Int × Int) where
  mapEntity := { arrived := true, target := none, speed := 0 }
  Paths := paths
  name := ""
  composite := { mode := "NU", weaponClass := "HTH", direction := 0, playedCount := 0,
                 failSetMode := false, failAdvance := false }
  action := action
  path := path
  repetitions := 0
  monstatRecord := none
  monstatEx := none
  HasPaths := decide (paths.length > 0)
  isDone := true

/-- Two waypoints: `(10,0)` with the skill action, `(0,0)` with the invalid action. -/
def samplePaths : List (d2common.Path (Int × Int)) :=
  [{ Position := (10, 0), Action := 4 }, { Position := (0, 0), Action := 0 }]

/-- An interactable stats record whose extended record is present in `fakeAssets`. -/
def cainStats : MonStatsRecord where
  ExtraDataKey := "cain"
  AnimationDirectoryToken := "DC"
  SpeedBase := 5
  IsInteractable := true
  NameString := "Deckard Cain"

/-- The outcome of `CreateNPC` at `(0,0)`, facing 0, from `cainStats` over the doubles. -/
def createSample :
    Option (Except Error (NPC FakeComposite FakeMotion (Int × Int) × Rand ×
      List (Call FakeComposite (Int × Int)))) :=
  CreateNPC stdEnum fakeComposite fakeMotion fakeAssets 0 0 (some cainStats) 0 (constRand 0)

/-! ## Predicates on call traces -/

/-- A mode-set call is fresh when the requested mode differs from the mode the composite
reports at the moment of the call; other calls are not constrained. -/
def Call.modeFresh (E : D2Enum) (co : CompositeOps C T) : Call C P → Prop
  | Call.SetMode before mode _ => co.GetAnimationMode before ≠ E.modeString mode
  | _ => True

/-- A facing push is fresh when the requested facing differs from the facing the
composite reports at the moment of the call; other calls are not constrained. -/
def Call.facingFresh (co : CompositeOps C T) : Call C P → Prop
  | Call.SetDirection before direction => co.GetDirection before ≠ direction
  | _ => True

/-- Whether a call is a mode-set. -/
def Call.isSetMode : Call C P → Bool
  | Call.SetMode _ _ _ => true
  | _ => false

/-- Whether a call arms a motion target. -/
def Call.isSetTarget : Call C P → Bool
  | Call.setTarget _ _ => true
  | _ => false

/-- The fields no callback writes agree: waypoints, cursor, flags of the path list,
pending action and name. -/
def NPC.sameRoute (v v1 : NPC C M P) : Prop :=
  v1.Paths = v.Paths ∧ v1.path = v.path ∧ v1.HasPaths = v.HasPaths ∧
    v1.action = v.action ∧ v1.name = v.name

/-- The animation mode the specification assigns to a pending action code: the skill
mode for the skill action, the neutral mode for every other code. -/
def arrivalMode (E : D2Enum) (action : Int) : Int :=
  if action = E.NPCActionSkill1 then E.MonsterAnimationModeSkill1
  else E.MonsterAnimationModeNeutral

/-- The animation mode the specification assigns to a heading change: walking while the
entity has not reached its motion target, neutral once it has. -/
def desiredMode (E : D2Enum) (mo : MapEntityOps M P T) (m : M) : Int :=
  if mo.atTarget m = false then E.MonsterAnimationModeWalk
  else E.MonsterAnimationModeNeutral

/-- A call issued from a callback is in order: a fresh mode-set, a fresh facing push, and
never the arming of a target. -/
def Call.fromCallback (E : D2Enum) (co : CompositeOps C T) (c : Call C P) : Prop :=
  Call.modeFresh E co c ∧ Call.facingFresh co c ∧ c.isSetTarget = false

/-- The retirement condition as `Advance` evaluates it on the NPC `s` left by the frame's
motion step: the playback advance reports no error, `HasPaths` and `isDone` hold, and the
played count reported after the playback advance exceeds `repetitions`. -/
def NPC.retirementDue (co : CompositeOps C T) (s : NPC C M P) (tickTime : T) : Prop :=
  (co.Advance s.composite tickTime).2 = none ∧ s.HasPaths = true ∧ s.isDone = true ∧
    co.GetPlayedCount (co.Advance s.composite tickTime).1 > s.repetitions

/-- The retirement condition without the error test, as C4 words it: `HasPaths` and
`isDone` hold and the played count reported after the playback advance exceeds
`repetitions`. -/
def NPC.retirementClaimed (co : CompositeOps C T) (s : NPC C M P) (tickTime : T) : Prop :=
  s.HasPaths = true ∧ s.isDone = true ∧
    co.GetPlayedCount (co.Advance s.composite tickTime).1 > s.repetitions

/-- An NPC over the doubles that is due for retirement on every count except that its
composite fails the playback advance: two waypoints, cursor 0, at rest, one loop played
against a repeat target of 0. -/
def stalledNPC : NPC FakeComposite FakeMotion (Int × Int) :=
  { sampleNPC samplePaths 0 0 with
    composite := { mode := "NU", weaponClass := "HTH", direction := 0, playedCount := 1,
                   failSetMode := false, failAdvance := true } }

/-- An NPC over the doubles that is under way to the target `(10,0)` while its composite
still reports the neutral mode and facing 0. -/
def walkingNPC : NPC FakeComposite FakeMotion (Int × Int) :=
  { sampleNPC samplePaths 0 0 with
    mapEntity := { arrived := false, target := some (10, 0), speed := 5 }
    isDone := false }

/-- The flag `HasPaths` agrees with the waypoint list: it is set exactly when the list
is non-empty. -/
def NPC.pathsFlagOk (v : NPC C M P) : Prop :=
  v.HasPaths = decide (v.Paths.length > 0)

/-- One `Advance` call per tick of the list, in order, with the calls of all frames; `none`
as soon as one frame panics. -/
def NPC.AdvanceN (E : D2Enum) (co : CompositeOps C T) (mo : MapEntityOps M P T) :
    List T → NPC C M P → Rand → Option (NPC C M P × Rand × List (Call C P))
  | [], v, g => some (v, g, [])
  | t :: ts, v, g =>
    match NPC.Advance E co mo v g t with
    | none => none
    | some (v1, g1, calls1) =>
      match NPC.AdvanceN E co mo ts v1 g1 with
      | none => none
      | some (v2, g2, calls2) => some (v2, g2, calls1 ++ calls2)

/-- Whether a callback is the completion hook. -/
def Callback.isDone : Callback → Bool
  | Callback.done _ => true
  | Callback.directioner _ => false

/-- A single waypoint at `(5,5)` with the invalid action. -/
def loneWaypoint : d2common.Path (Int × Int) :=
  { Position := (5, 5), Action := 0 }

/-- A stats record that is not interactable; its extended record is the one `fakeAssets`
holds. -/
def plainStats : MonStatsRecord where
  ExtraDataKey := "cain"
  AnimationDirectoryToken := "RT"
  SpeedBase := 3
  IsInteractable := false
  NameString := "rat"

/-- Asset tables whose composite assembly fails outright: no composite, and an error. -/
def brokenAssets : Assets FakeComposite FakeMotion :=
  { fakeAssets with LoadComposite := fun _ _ _ => (none, some "composite not found") }

/-- Asset tables whose composite assembly hands back a composite together with an error. -/
def flaggedAssets : Assets FakeComposite FakeMotion :=
  { fakeAssets with
    LoadComposite := fun a b c => ((fakeAssets.LoadComposite a b c).1, some "palette not found") }

/-- An NPC over the doubles that is under way while its composite reports the neutral mode
and facing 0 and refuses every mode-set. -/
def jammedNPC : NPC FakeComposite FakeMotion (Int × Int) :=
  { walkingNPC with
    composite := { mode := "NU", weaponClass := "HTH", direction := 0, playedCount := 0,
                   failSetMode := true, failAdvance := false } }

/-- Operations of a composite double whose playback advance fails on a tick of 99 and
otherwise behaves as `fakeComposite`. -/
def flakyComposite : CompositeOps FakeComposite Nat :=
  { fakeComposite with
    Advance := fun c t =>
      if t = 99 then (c, some "advance failed") else fakeComposite.Advance c t }

/-! ## Path cursor: lemmas -/

theorem index_of_lt {α : Type} (xs : List α) (i : Int) (h0 : 0 ≤ i) (h1 : i < xs.length) :
    ∃ x, index xs i = some x := by
  have h : i.toNat < xs.length := by omega
  exact ⟨xs[i.toNat], by simp [index, h0, List.getElem?_eq_getElem h]⟩

theorem NextPath_step (v : NPC C M P) (h0 : 0 ≤ v.path) (h1 : v.path < v.Paths.length) :
    ∃ p, v.NextPath = some ({ v with path := (v.path + 1) % v.Paths.length }, p) ∧
      index v.Paths ((v.path + 1) % v.Paths.length) = some p := by
  have hn : (0 : Int) < v.Paths.length := by omega
  have hlo : 0 ≤ (v.path + 1) % (v.Paths.length : Int) := Int.emod_nonneg _ (by omega)
  have hhi : (v.path + 1) % (v.Paths.length : Int) < v.Paths.length := Int.emod_lt_of_pos _ hn
  obtain ⟨p, hp⟩ := index_of_lt v.Paths _ hlo hhi
  refine ⟨p, ?_, hp⟩
  unfold NPC.NextPath
  by_cases hc : v.path + 1 = (v.Paths.length : Int)
  · have he : (v.path + 1) % (v.Paths.length : Int) = 0 := by rw [hc, Int.emod_self]
    rw [he] at hp
    simp [hc, hp, he]
  · have he : (v.path + 1) % (v.Paths.length : Int) = v.path + 1 :=
      Int.emod_eq_of_lt (by omega) (by omega)
    rw [he] at hp
    simp [hc, hp, he]

/-! ## Claims about the path cursor -/

/-- C1: on a non-empty path list of length `N` with the cursor at `i`, `0 ≤ i < N`, `k`
successive `NextPath` calls all succeed, leave every field but the cursor unchanged, leave
the cursor at `(i + k) mod N`, which lies in `[0, N)`, and the `j`-th call (counted from 1)
returns `Paths[(i + j) mod N]`. -/
theorem NextPath_cycles (v : NPC C M P) (k : Nat)
    (h0 : 0 ≤ v.path) (h1 : v.path < v.Paths.length) :
    ∃ v1 ps, NPC.NextPathN k v = some (v1, ps) ∧
      v1 = { v with path := (v.path + k) % v.Paths.length } ∧
      0 ≤ v1.path ∧ v1.path < v.Paths.length ∧
      ps.map some = (List.range k).map
        (fun j => index v.Paths ((v.path + ((j + 1 : Nat) : Int)) % v.Paths.length)) := by
  induction k generalizing v with
  | zero =>
    refine ⟨v, [], rfl, ?_, h0, h1, by simp⟩
    have he : (v.path + ((0 : Nat) : Int)) % (v.Paths.length : Int) = v.path := by
      simpa using Int.emod_eq_of_lt h0 h1
    rw [he]
  | succ k ih =>
    obtain ⟨p, hstep, hp⟩ := NextPath_step v h0 h1
    have hn : (0 : Int) < v.Paths.length := by omega
    have hlo : 0 ≤ (v.path + 1) % (v.Paths.length : Int) := Int.emod_nonneg _ (by omega)
    have hhi : (v.path + 1) % (v.Paths.length : Int) < v.Paths.length :=
      Int.emod_lt_of_pos _ hn
    obtain ⟨v2, ps, hrun, hv2, hlo2, hhi2, hps⟩ :=
      ih { v with path := (v.path + 1) % (v.Paths.length : Int) } hlo hhi
    have hidx : ((v.path + 1) % (v.Paths.length : Int) + (k : Int)) % (v.Paths.length : Int)
        = (v.path + ((k + 1 : Nat) : Int)) % (v.Paths.length : Int) := by
      rw [Int.emod_add_emod]
      congr 1
      push_cast
      ring
    refine ⟨v2, p :: ps, ?_, ?_, hlo2, hhi2, ?_⟩
    · simp [NPC.NextPathN, hstep, hrun]
    · rw [hv2]
      simp only [hidx]
    · rw [List.range_succ_eq_map, List.map_cons, List.map_cons, List.map_map, hps]
      congr 1
      · simpa using hp.symm
      · apply List.map_congr_left
        intro j _
        simp only [Function.comp]
        congr 1
        rw [Int.emod_add_emod]
        congr 1
        push_cast
        ring

/-- Witness for C1: three calls on the two-waypoint list, cursor at 1. -/
theorem NextPath_cycles_witness :
    ∃ v1 ps, NPC.NextPathN 3 (sampleNPC samplePaths 1 0) = some (v1, ps) ∧
      v1 = { sampleNPC samplePaths 1 0 with
        path := ((sampleNPC samplePaths 1 0).path + (3 : Nat)) %
          (sampleNPC samplePaths 1 0).Paths.length } ∧
      0 ≤ v1.path ∧ v1.path < (sampleNPC samplePaths 1 0).Paths.length ∧
      ps.map some = (List.range 3).map
        (fun j => index (sampleNPC samplePaths 1 0).Paths
          (((sampleNPC samplePaths 1 0).path + ((j + 1 : Nat) : Int)) %
            (sampleNPC samplePaths 1 0).Paths.length)) :=
  NextPath_cycles (sampleNPC samplePaths 1 0) 3 (by decide) (by decide)

/-- C2 (code evaluated at the failing input): construct an NPC, assign two waypoints,
advance the cursor once (index 1), then assign a single waypoint.  `SetPaths` leaves the
index at 1, so on this non-empty list the index is not below the length and both `Path`
and `NextPath` panic with an index out of range. -/
theorem SetPaths_stale_cursor_panics :
    ∃ v0 g calls v2 p,
      createSample = some (Except.ok (v0, g, calls)) ∧
      (v0.SetPaths samplePaths).NextPath = some (v2, p) ∧
      (v2.SetPaths [p]).Paths.length = 1 ∧
      (v2.SetPaths [p]).HasPaths = true ∧
      (v2.SetPaths [p]).path = 1 ∧
      (v2.SetPaths [p]).Path = none ∧
      (v2.SetPaths [p]).NextPath = none :=
  ⟨_, _, _, _, _, rfl, rfl, rfl, rfl, rfl, rfl, rfl⟩

/-- C3 (code evaluated at the failing input): construct an NPC, assign two waypoints and
advance the cursor once (index 1); `SetPaths` with a single waypoint then replaces the
waypoint sequence but leaves the cursor at 1 instead of resetting it to 0. -/
theorem SetPaths_keeps_stale_cursor :
    ∃ v0 g calls v2 p,
      createSample = some (Except.ok (v0, g, calls)) ∧
      (v0.SetPaths samplePaths).NextPath = some (v2, p) ∧
      v2.path = 1 ∧
      (v2.SetPaths [loneWaypoint]).Paths = [loneWaypoint] ∧
      (v2.SetPaths [loneWaypoint]).path = 1 ∧
      (v2.SetPaths [loneWaypoint]).path ≠ 0 :=
  ⟨_, _, _, _, _, rfl, rfl, rfl, rfl, rfl, by decide⟩

theorem SetPaths_fields (v : NPC C M P) (ws : List (d2common.Path P)) :
    (v.SetPaths ws).Paths = ws ∧ (v.SetPaths ws).path = v.path ∧
      (v.SetPaths ws).action = v.action ∧ (v.SetPaths ws).repetitions = v.repetitions ∧
      (v.SetPaths ws).composite = v.composite ∧ (v.SetPaths ws).mapEntity = v.mapEntity :=
  ⟨rfl, rfl, rfl, rfl, rfl, rfl⟩

/-! ## Callbacks: lemmas -/

theorem next_fst (E : D2Enum) (co : CompositeOps C T) (v : NPC C M P) (g : Rand) :
    ∃ c, (NPC.next (P := P) E co v g).1 =
      { v with isDone := true, repetitions := 0, composite := c } := by
  simp only [NPC.next, Rand.Intn]
  split_ifs <;> (try split) <;> exact ⟨_, rfl⟩

theorem rotate_fst (E : D2Enum) (co : CompositeOps C T) (mo : MapEntityOps M P T)
    (v : NPC C M P) (d : Int) :
    ∃ c, (NPC.rotate E co mo v d).1 = { v with composite := c } := by
  simp only [NPC.rotate]
  split_ifs <;> exact ⟨_, rfl⟩

theorem next_calls (E : D2Enum) (co : CompositeOps C T) (v : NPC C M P) (g : Rand) :
    (NPC.next (P := P) E co v g).2.2 =
      if co.GetAnimationMode v.composite ≠ E.modeString (arrivalMode E v.action) then
        [Call.SetMode v.composite (arrivalMode E v.action) (co.GetWeaponClass v.composite)]
      else [] := by
  simp only [NPC.next, Rand.Intn, arrivalMode]
  split_ifs <;> (try split) <;> rfl

theorem next_composite (E : D2Enum) (co : CompositeOps C T) (v : NPC C M P) (g : Rand) :
    (NPC.next (P := P) E co v g).1.composite =
      if co.GetAnimationMode v.composite ≠ E.modeString (arrivalMode E v.action) then
        (co.SetMode v.composite (arrivalMode E v.action) (co.GetWeaponClass v.composite)).1
      else v.composite := by
  simp only [NPC.next, Rand.Intn, arrivalMode]
  split_ifs <;> (try split) <;> rfl

theorem rotate_calls (E : D2Enum) (co : CompositeOps C T) (mo : MapEntityOps M P T)
    (v : NPC C M P) (d : Int) :
    (NPC.rotate E co mo v d).2 =
      if E.modeString (desiredMode E mo v.mapEntity) ≠ co.GetAnimationMode v.composite then
        Call.SetMode v.composite (desiredMode E mo v.mapEntity)
            (co.GetWeaponClass v.composite) ::
          (if (co.SetMode v.composite (desiredMode E mo v.mapEntity)
                (co.GetWeaponClass v.composite)).2.isSome = true then []
           else if co.GetDirection (co.SetMode v.composite (desiredMode E mo v.mapEntity)
                (co.GetWeaponClass v.composite)).1 ≠ d then
             [Call.SetDirection (co.SetMode v.composite (desiredMode E mo v.mapEntity)
                (co.GetWeaponClass v.composite)).1 d]
           else [])
      else if co.GetDirection v.composite ≠ d then [Call.SetDirection v.composite d]
      else [] := by
  simp only [NPC.rotate, desiredMode]
  cases mo.atTarget v.mapEntity <;> simp <;> split_ifs <;> simp_all

theorem rotate_composite (E : D2Enum) (co : CompositeOps C T) (mo : MapEntityOps M P T)
    (v : NPC C M P) (d : Int) :
    (NPC.rotate E co mo v d).1.composite =
      if E.modeString (desiredMode E mo v.mapEntity) ≠ co.GetAnimationMode v.composite then
        (if (co.SetMode v.composite (desiredMode E mo v.mapEntity)
              (co.GetWeaponClass v.composite)).2.isSome = true then
           (co.SetMode v.composite (desiredMode E mo v.mapEntity)
              (co.GetWeaponClass v.composite)).1
         else if co.GetDirection (co.SetMode v.composite (desiredMode E mo v.mapEntity)
              (co.GetWeaponClass v.composite)).1 ≠ d then
           co.SetDirection (co.SetMode v.composite (desiredMode E mo v.mapEntity)
              (co.GetWeaponClass v.composite)).1 d
         else (co.SetMode v.composite (desiredMode E mo v.mapEntity)
              (co.GetWeaponClass v.composite)).1)
      else if co.GetDirection v.composite ≠ d then co.SetDirection v.composite d
      else v.composite := by
  simp only [NPC.rotate, desiredMode]
  cases mo.atTarget v.mapEntity <;> simp <;> split_ifs <;> simp_all

theorem next_calls_fromCallback (E : D2Enum) (co : CompositeOps C T) (v : NPC C M P)
    (g : Rand) : ∀ c ∈ (NPC.next (P := P) E co v g).2.2, Call.fromCallback E co c := by
  intro c hc
  rw [next_calls] at hc
  split_ifs at hc with h
  · simp only [List.mem_singleton] at hc
    subst hc
    exact ⟨h, trivial, rfl⟩
  · simp at hc

theorem rotate_calls_fromCallback (E : D2Enum) (co : CompositeOps C T)
    (mo : MapEntityOps M P T) (v : NPC C M P) (d : Int) :
    ∀ c ∈ (NPC.rotate E co mo v d).2, Call.fromCallback E co c := by
  intro c hc
  rw [rotate_calls] at hc
  split_ifs at hc with h1 h2 h3 h4
  all_goals simp only [List.mem_cons, List.mem_singleton, List.not_mem_nil, or_false] at hc
  · subst hc
    exact ⟨fun e => h1 e.symm, trivial, rfl⟩
  · rcases hc with hc | hc
    · subst hc
      exact ⟨fun e => h1 e.symm, trivial, rfl⟩
    · subst hc
      exact ⟨trivial, h3, rfl⟩
  · subst hc
    exact ⟨fun e => h1 e.symm, trivial, rfl⟩
  · subst hc
    exact ⟨trivial, h4, rfl⟩

theorem dispatch_inv (E : D2Enum) (co : CompositeOps C T) (mo : MapEntityOps M P T)
    (v : NPC C M P) (g : Rand) (m : M) (cb : Callback) :
    NPC.sameRoute v (NPC.dispatch E co mo v g m cb).1 ∧
      ∀ c ∈ (NPC.dispatch E co mo v g m cb).2.2, Call.fromCallback E co c := by
  cases cb with
  | done hook =>
    cases hook
    obtain ⟨c, hc⟩ := next_fst (P := P) E co { v with mapEntity := m } g
    refine ⟨?_, next_calls_fromCallback E co _ g⟩
    simp only [NPC.dispatch, hc, NPC.sameRoute, and_self]
  | directioner d =>
    obtain ⟨c, hc⟩ := rotate_fst E co mo { v with mapEntity := m } d
    refine ⟨?_, rotate_calls_fromCallback E co mo _ d⟩
    simp only [NPC.dispatch, hc, NPC.sameRoute, and_self]

theorem dispatch_directioner (E : D2Enum) (co : CompositeOps C T) (mo : MapEntityOps M P T)
    (v : NPC C M P) (g : Rand) (m : M) (d : Int) :
    (NPC.dispatch E co mo v g m (Callback.directioner d)).1.isDone = v.isDone ∧
      (NPC.dispatch E co mo v g m (Callback.directioner d)).1.repetitions = v.repetitions := by
  obtain ⟨c, hc⟩ := rotate_fst E co mo { v with mapEntity := m } d
  simp only [NPC.dispatch, hc, and_self]

theorem runCallbacks_inv (E : D2Enum) (co : CompositeOps C T) (mo : MapEntityOps M P T)
    (cbs : List (M × Callback)) (v : NPC C M P) (g : Rand) :
    NPC.sameRoute v (NPC.runCallbacks E co mo v g cbs).1 ∧
      ∀ c ∈ (NPC.runCallbacks E co mo v g cbs).2.2, Call.fromCallback E co c := by
  induction cbs generalizing v g with
  | nil => exact ⟨⟨rfl, rfl, rfl, rfl, rfl⟩, by simp [NPC.runCallbacks]⟩
  | cons x rest ih =>
    obtain ⟨m, cb⟩ := x
    obtain ⟨hr1, hc1⟩ := dispatch_inv E co mo v g m cb
    obtain ⟨hr2, hc2⟩ := ih (NPC.dispatch E co mo v g m cb).1 (NPC.dispatch E co mo v g m cb).2.1
    simp only [NPC.runCallbacks]
    refine ⟨?_, ?_⟩
    · obtain ⟨a1, a2, a3, a4, a5⟩ := hr1
      obtain ⟨b1, b2, b3, b4, b5⟩ := hr2
      exact ⟨b1.trans a1, b2.trans a2, b3.trans a3, b4.trans a4, b5.trans a5⟩
    · intro c hc
      rcases List.mem_append.mp hc with h | h
      · exact hc1 c h
      · exact hc2 c h

theorem runCallbacks_directioners (E : D2Enum) (co : CompositeOps C T)
    (mo : MapEntityOps M P T) (dirs : List (M × Int)) (v : NPC C M P) (g : Rand) :
    (NPC.runCallbacks E co mo v g
        (dirs.map (fun d => (d.1, Callback.directioner d.2)))).1.isDone = v.isDone ∧
      (NPC.runCallbacks E co mo v g
        (dirs.map (fun d => (d.1, Callback.directioner d.2)))).1.repetitions
        = v.repetitions := by
  induction dirs generalizing v g with
  | nil => exact ⟨rfl, rfl⟩
  | cons x rest ih =>
    obtain ⟨h1, h2⟩ := dispatch_directioner E co mo v g x.1 x.2
    obtain ⟨h3, h4⟩ := ih (NPC.dispatch E co mo v g x.1 (Callback.directioner x.2)).1
      (NPC.dispatch E co mo v g x.1 (Callback.directioner x.2)).2.1
    simp only [List.map_cons, NPC.runCallbacks]
    exact ⟨h3.trans h1, h4.trans h2⟩

theorem Step_inv (E : D2Enum) (co : CompositeOps C T) (mo : MapEntityOps M P T)
    (v : NPC C M P) (g : Rand) (t : T) :
    NPC.sameRoute v (NPC.Step E co mo v g t).1 ∧
      ∀ c ∈ (NPC.Step E co mo v g t).2.2, Call.fromCallback E co c := by
  obtain ⟨hr, hc⟩ := runCallbacks_inv E co mo (mo.Step v.mapEntity t).1 v g
  exact ⟨hr, hc⟩

theorem setTarget_inv (E : D2Enum) (co : CompositeOps C T) (mo : MapEntityOps M P T)
    (v : NPC C M P) (g : Rand) (p : P) (h : DoneHook) :
    NPC.sameRoute v (NPC.setTarget E co mo v g p h).1 ∧
      (NPC.setTarget E co mo v g p h).1.isDone = v.isDone ∧
      (NPC.setTarget E co mo v g p h).1.repetitions = v.repetitions ∧
      (NPC.setTarget E co mo v g p h).1.mapEntity = (mo.setTarget v.mapEntity p h).2 ∧
      ∃ calls, (NPC.setTarget E co mo v g p h).2.2 = Call.setTarget p h :: calls ∧
        ∀ c ∈ calls, Call.fromCallback E co c := by
  obtain ⟨hr, hc⟩ := runCallbacks_inv E co mo
    ((mo.setTarget v.mapEntity p h).1.map (fun d => (d.1, Callback.directioner d.2))) v g
  obtain ⟨hd, hrep⟩ := runCallbacks_directioners E co mo (mo.setTarget v.mapEntity p h).1 v g
  exact ⟨hr, hd, hrep, rfl, _, rfl, hc⟩

/-! ## Claims about `Advance` -/

theorem Advance_eq (E : D2Enum) (co : CompositeOps C T) (mo : MapEntityOps M P T)
    (v : NPC C M P) (g : Rand) (t : T) :
    NPC.Advance E co mo v g t =
      match (co.Advance (NPC.Step E co mo v g t).1.composite t).2 with
      | some _ =>
        some ({ (NPC.Step E co mo v g t).1 with
                composite := (co.Advance (NPC.Step E co mo v g t).1.composite t).1 },
              (NPC.Step E co mo v g t).2.1, (NPC.Step E co mo v g t).2.2)
      | none =>
        if ((NPC.Step E co mo v g t).1.HasPaths &&
            NPC.wait co { (NPC.Step E co mo v g t).1 with
              composite := (co.Advance (NPC.Step E co mo v g t).1.composite t).1 }) = true then
          match NPC.NextPath { (NPC.Step E co mo v g t).1 with
              composite := (co.Advance (NPC.Step E co mo v g t).1.composite t).1,
              isDone := false } with
          | none => none
          | some (v2, path) =>
            some ({ (NPC.setTarget E co mo v2 (NPC.Step E co mo v g t).2.1 path.Position
                      DoneHook.next).1 with action := path.Action },
                  (NPC.setTarget E co mo v2 (NPC.Step E co mo v g t).2.1 path.Position
                      DoneHook.next).2.1,
                  (NPC.Step E co mo v g t).2.2 ++
                    (NPC.setTarget E co mo v2 (NPC.Step E co mo v g t).2.1 path.Position
                      DoneHook.next).2.2)
        else
          some ({ (NPC.Step E co mo v g t).1 with
                  composite := (co.Advance (NPC.Step E co mo v g t).1.composite t).1 },
                (NPC.Step E co mo v g t).2.1, (NPC.Step E co mo v g t).2.2) :=
  rfl

theorem filter_fromCallback (E : D2Enum) (co : CompositeOps C T) (calls : List (Call C P))
    (h : ∀ c ∈ calls, Call.fromCallback E co c) : calls.filter Call.isSetTarget = [] := by
  rw [List.filter_eq_nil_iff]
  intro c hc
  simp [(h c hc).2.2]

/-- C4, as stated, fails: on `stalledNPC` the three conditions of the claim hold after
the motion step (has paths, at rest, played count 1 above repeat target 0), yet the
playback advance fails and `Advance` returns without retiring the waypoint: the NPC is
still at rest, the cursor is still 0 and no call was issued. -/
theorem Advance_retirement_counterexample :
    NPC.retirementClaimed fakeComposite
        (NPC.Step stdEnum fakeComposite fakeMotion stalledNPC (constRand 0) 0).1 0 ∧
      (NPC.Advance stdEnum fakeComposite fakeMotion stalledNPC (constRand 0) 0).map
        (fun r => (r.1.isDone, r.1.path, r.1.action, r.1.mapEntity.target, r.2.2))
        = some (true, 0, 0, none, []) := by
  refine ⟨⟨rfl, rfl, ?_⟩, rfl⟩
  decide

/-- C4 (amended): `Advance` performs the waypoint-retirement transition exactly when the
composite's playback advance does not fail and, on the state left by the frame's motion
step, `HasPaths` is true, `isDone` is true and the played count reported after the
playback advance is greater than `repetitions`.  With the cursor in range, `Advance`
returns; when the transition fires the post-state has `isDone = false`, the cursor
advanced by one with wraparound, the motion target set to the new current waypoint's
position with `next` as completion hook (the one target armed in the frame),
`action` equal to that waypoint's action code and `repetitions` untouched; when it does
not fire, `isDone`, cursor, `action` and motion state are those left by the motion step
and no target is armed. -/
theorem Advance_retirement (E : D2Enum) (co : CompositeOps C T) (mo : MapEntityOps M P T)
    (v : NPC C M P) (g : Rand) (t : T)
    (hidx : v.HasPaths = true → 0 ≤ v.path ∧ v.path < v.Paths.length) :
    ∃ v1 g1 calls, NPC.Advance E co mo v g t = some (v1, g1, calls) ∧
      (NPC.retirementDue co (NPC.Step E co mo v g t).1 t →
        ∃ w, index v.Paths ((v.path + 1) % v.Paths.length) = some w ∧
          v1.isDone = false ∧ v1.Paths = v.Paths ∧
          v1.path = (v.path + 1) % v.Paths.length ∧
          v1.action = w.Action ∧
          v1.mapEntity = (mo.setTarget (NPC.Step E co mo v g t).1.mapEntity w.Position
            DoneHook.next).2 ∧
          v1.repetitions = (NPC.Step E co mo v g t).1.repetitions ∧
          calls.filter Call.isSetTarget = [Call.setTarget w.Position DoneHook.next]) ∧
      (¬ NPC.retirementDue co (NPC.Step E co mo v g t).1 t →
        v1.isDone = (NPC.Step E co mo v g t).1.isDone ∧ v1.Paths = v.Paths ∧
          v1.path = v.path ∧ v1.action = v.action ∧
          v1.mapEntity = (NPC.Step E co mo v g t).1.mapEntity ∧
          v1.repetitions = (NPC.Step E co mo v g t).1.repetitions ∧
          calls.filter Call.isSetTarget = []) := by
  obtain ⟨⟨hP, hp, hH, ha, -⟩, hcs⟩ := Step_inv E co mo v g t
  rw [Advance_eq]
  unfold NPC.retirementDue
  generalize NPC.Step E co mo v g t = S at hP hp hH ha hcs ⊢
  obtain ⟨s, gs, cs⟩ := S
  simp only at hP hp hH ha hcs ⊢
  generalize co.Advance s.composite t = A
  obtain ⟨c, err⟩ := A
  have hfil := filter_fromCallback E co cs hcs
  cases err with
  | some e =>
    refine ⟨_, _, _, rfl, ?_, ?_⟩
    · intro h
      simp at h
    · intro _
      exact ⟨rfl, hP, hp, ha, rfl, rfl, hfil⟩
  | none =>
    simp only [true_and]
    by_cases hdue : s.HasPaths = true ∧ s.isDone = true ∧ co.GetPlayedCount c > s.repetitions
    · obtain ⟨h1, h2, h3⟩ := hdue
      have hcond : (s.HasPaths && NPC.wait co { s with composite := c }) = true := by
        simp [NPC.wait, h1, h2, h3]
      obtain ⟨hlo, hhi⟩ := hidx (hH ▸ h1)
      obtain ⟨w, hstep, hidxw⟩ := NextPath_step
        { s with composite := c, isDone := false } (by simpa [hp] using hlo)
        (by simpa [hp, hP] using hhi)
      simp only at hstep hidxw
      rw [if_pos hcond, hstep]
      simp only
      obtain ⟨⟨sP, sp, -, -, -⟩, sD, sR, sM, cs2, hcs2, hfresh⟩ := setTarget_inv E co mo
        { s with composite := c, isDone := false, path := (s.path + 1) % s.Paths.length }
        gs w.Position DoneHook.next
      simp only at sP sp sD sR sM
      refine ⟨_, _, _, rfl, ?_, ?_⟩
      · intro _
        refine ⟨w, by rw [← hp, ← hP]; exact hidxw, sD, sP.trans hP,
          by rw [← hp, ← hP]; exact sp, rfl, sM, sR, ?_⟩
        rw [List.filter_append, hfil, hcs2, List.nil_append, List.filter_cons,
          filter_fromCallback E co cs2 hfresh]
        rfl
      · intro h
        exact absurd ⟨h1, h2, h3⟩ h
    · have hw : (s.HasPaths && NPC.wait co { s with composite := c }) = false := by
        cases hh : s.HasPaths
        · rfl
        · cases hd : s.isDone
          · simp [NPC.wait, hd]
          · have h3 : ¬ co.GetPlayedCount c > s.repetitions := fun h3 => hdue ⟨hh, hd, h3⟩
            simp [NPC.wait, hd, h3]
      simp only [hw, Bool.false_eq_true, if_false]
      refine ⟨_, _, _, rfl, ?_, ?_⟩
      · intro h
        exact absurd h hdue
      · intro _
        exact ⟨rfl, hP, hp, ha, rfl, rfl, hfil⟩

/-- Witness for C4 (amended): on the two-waypoint NPC at rest with cursor 0 the
retirement is due, and `Advance` performs it. -/
theorem Advance_retirement_witness :
    NPC.retirementDue fakeComposite
        (NPC.Step stdEnum fakeComposite fakeMotion (sampleNPC samplePaths 0 0)
          (constRand 0) 0).1 0 ∧
      ∃ v1 g1 calls,
        NPC.Advance stdEnum fakeComposite fakeMotion (sampleNPC samplePaths 0 0)
          (constRand 0) 0 = some (v1, g1, calls) ∧
        (NPC.retirementDue fakeComposite
            (NPC.Step stdEnum fakeComposite fakeMotion (sampleNPC samplePaths 0 0)
              (constRand 0) 0).1 0 →
          ∃ w, index (sampleNPC samplePaths 0 0).Paths
              (((sampleNPC samplePaths 0 0).path + 1) %
                (sampleNPC samplePaths 0 0).Paths.length) = some w ∧
            v1.isDone = false ∧ v1.Paths = (sampleNPC samplePaths 0 0).Paths ∧
            v1.path = ((sampleNPC samplePaths 0 0).path + 1) %
              (sampleNPC samplePaths 0 0).Paths.length ∧
            v1.action = w.Action ∧
            v1.mapEntity = (fakeMotion.setTarget
              (NPC.Step stdEnum fakeComposite fakeMotion (sampleNPC samplePaths 0 0)
                (constRand 0) 0).1.mapEntity w.Position DoneHook.next).2 ∧
            v1.repetitions = (NPC.Step stdEnum fakeComposite fakeMotion
              (sampleNPC samplePaths 0 0) (constRand 0) 0).1.repetitions ∧
            calls.filter Call.isSetTarget = [Call.setTarget w.Position DoneHook.next]) ∧
        (¬ NPC.retirementDue fakeComposite
            (NPC.Step stdEnum fakeComposite fakeMotion (sampleNPC samplePaths 0 0)
              (constRand 0) 0).1 0 →
          v1.isDone = (NPC.Step stdEnum fakeComposite fakeMotion
              (sampleNPC samplePaths 0 0) (constRand 0) 0).1.isDone ∧
            v1.Paths = (sampleNPC samplePaths 0 0).Paths ∧
            v1.path = (sampleNPC samplePaths 0 0).path ∧
            v1.action = (sampleNPC samplePaths 0 0).action ∧
            v1.mapEntity = (NPC.Step stdEnum fakeComposite fakeMotion
              (sampleNPC samplePaths 0 0) (constRand 0) 0).1.mapEntity ∧
            v1.repetitions = (NPC.Step stdEnum fakeComposite fakeMotion
              (sampleNPC samplePaths 0 0) (constRand 0) 0).1.repetitions ∧
            calls.filter Call.isSetTarget = []) :=
  ⟨⟨rfl, rfl, rfl, by decide⟩,
    Advance_retirement stdEnum fakeComposite fakeMotion (sampleNPC samplePaths 0 0)
      (constRand 0) 0 (fun _ => ⟨by decide, by decide⟩)⟩

/-! ## Claims about the arrival callback `next` -/

/-- C5 (code evaluated at the failing input): with the pending action `NPCAction1`, which
is not the skill action, `next` draws `3 + 2 = 5`, a value in `[3, 7]`, and then overwrites
it: after `next` the value of `repetitions` is 0, outside `[3, 7]`, and it is the same 0
for another draw. -/
theorem next_overwrites_drawn_repetitions :
    (sampleNPC samplePaths 0 1).action ≠ stdEnum.NPCActionSkill1 ∧
    minAnimationRepetitions + (((constRand 2).Intn maxAnimationRepetitions).1 : Int) = 5 ∧
    (NPC.next stdEnum fakeComposite (sampleNPC samplePaths 0 1)
        (constRand 2)).1.repetitions = 0 ∧
    ¬ (3 ≤ (NPC.next stdEnum fakeComposite (sampleNPC samplePaths 0 1)
            (constRand 2)).1.repetitions ∧
       (NPC.next stdEnum fakeComposite (sampleNPC samplePaths 0 1)
            (constRand 2)).1.repetitions ≤ 7) ∧
    (NPC.next stdEnum fakeComposite (sampleNPC samplePaths 0 1)
        (constRand 4)).1.repetitions
      = (NPC.next stdEnum fakeComposite (sampleNPC samplePaths 0 1)
        (constRand 2)).1.repetitions := by
  decide

/-- The draw in `next`, for every pending action code and every state of the random
source: one value is drawn, `minAnimationRepetitions` plus that value lies in `[3, 7]`,
and the value `next` leaves in `repetitions` is 0 all the same. -/
theorem next_repetitions_drawn_then_zero (E : D2Enum) (co : CompositeOps C T)
    (v : NPC C M P) (g : Rand) :
    (3 ≤ minAnimationRepetitions + ((g.Intn maxAnimationRepetitions).1 : Int) ∧
      minAnimationRepetitions + ((g.Intn maxAnimationRepetitions).1 : Int) ≤ 7) ∧
    (NPC.next (P := P) E co v g).2.1 = (g.Intn maxAnimationRepetitions).2 ∧
    (NPC.next (P := P) E co v g).1.repetitions = 0 := by
  refine ⟨?_, ?_, ?_⟩
  · have h : g.raw g.pos % 5 < 5 := Nat.mod_lt _ (by decide)
    simp only [minAnimationRepetitions, maxAnimationRepetitions, Rand.Intn]
    omega
  · simp only [NPC.next, Rand.Intn]
    split_ifs <;> (try split) <;> rfl
  · obtain ⟨c, hc⟩ := next_fst (P := P) E co v g
    rw [hc]

/-- C6: for every pending action code (skill, the invalid sentinel, the generic codes,
any other integer) and every state of the random source, `next` leaves `repetitions`
equal to 0 and `isDone` equal to true, whether or not the mode-set fails. -/
theorem next_repetitions_zero_isDone (E : D2Enum) (co : CompositeOps C T)
    (v : NPC C M P) (g : Rand) :
    (NPC.next (P := P) E co v g).1.repetitions = 0 ∧
      (NPC.next (P := P) E co v g).1.isDone = true := by
  obtain ⟨c, hc⟩ := next_fst (P := P) E co v g
  rw [hc]
  exact ⟨rfl, rfl⟩

theorem fakeComposite_SetMode_law (c : FakeComposite) (m : Int) (wc : String)
    (h : (fakeComposite.SetMode c m wc).2 = none) :
    fakeComposite.GetAnimationMode (fakeComposite.SetMode c m wc).1 = stdEnum.modeString m := by
  cases hf : c.failSetMode <;> simp [fakeComposite, hf] at h ⊢

/-- C7: `next` computes the skill animation mode when the pending action is
`NPCActionSkill1` and the neutral mode for every other action code: any mode-set it
issues asks for that mode, and whenever the mode-set does not fail the mode the composite
reports after `next` is that mode.  The composite is assumed to report the mode of a
successful mode-set. -/
theorem next_mode (E : D2Enum) (co : CompositeOps C T) (v : NPC C M P) (g : Rand)
    (hlaw : ∀ c m wc, (co.SetMode c m wc).2 = none →
      co.GetAnimationMode (co.SetMode c m wc).1 = E.modeString m)
    (hok : co.GetAnimationMode v.composite ≠ E.modeString (arrivalMode E v.action) →
      (co.SetMode v.composite (arrivalMode E v.action)
        (co.GetWeaponClass v.composite)).2 = none) :
    (v.action = E.NPCActionSkill1 → arrivalMode E v.action = E.MonsterAnimationModeSkill1) ∧
    (v.action ≠ E.NPCActionSkill1 → arrivalMode E v.action = E.MonsterAnimationModeNeutral) ∧
    (∀ before mode wc, Call.SetMode before mode wc ∈ (NPC.next (P := P) E co v g).2.2 →
      mode = arrivalMode E v.action) ∧
    co.GetAnimationMode (NPC.next (P := P) E co v g).1.composite
      = E.modeString (arrivalMode E v.action) := by
  refine ⟨fun h => by simp [arrivalMode, h], fun h => by simp [arrivalMode, h], ?_, ?_⟩
  · intro before mode wc hmem
    rw [next_calls] at hmem
    split_ifs at hmem
    · simp only [List.mem_singleton, Call.SetMode.injEq] at hmem
      exact hmem.2.1
    · simp at hmem
  · rw [next_composite]
    split_ifs with h
    · exact hlaw _ _ _ (hok h)
    · exact not_not.mp h

/-- Witness for C7: the skill action pending on an idle composite double. -/
theorem next_mode_witness :
    ((sampleNPC samplePaths 0 4).action = stdEnum.NPCActionSkill1 →
      arrivalMode stdEnum (sampleNPC samplePaths 0 4).action
        = stdEnum.MonsterAnimationModeSkill1) ∧
    ((sampleNPC samplePaths 0 4).action ≠ stdEnum.NPCActionSkill1 →
      arrivalMode stdEnum (sampleNPC samplePaths 0 4).action
        = stdEnum.MonsterAnimationModeNeutral) ∧
    (∀ before mode wc, Call.SetMode before mode wc ∈
        (NPC.next (P := Int × Int) stdEnum fakeComposite (sampleNPC samplePaths 0 4)
          (constRand 0)).2.2 →
      mode = arrivalMode stdEnum (sampleNPC samplePaths 0 4).action) ∧
    fakeComposite.GetAnimationMode
        (NPC.next (P := Int × Int) stdEnum fakeComposite (sampleNPC samplePaths 0 4)
          (constRand 0)).1.composite
      = stdEnum.modeString (arrivalMode stdEnum (sampleNPC samplePaths 0 4).action) :=
  next_mode stdEnum fakeComposite (sampleNPC samplePaths 0 4) (constRand 0)
    fakeComposite_SetMode_law (fun _ => rfl)

/-! ## Claims about redundant pushes -/

theorem Advance_calls (E : D2Enum) (co : CompositeOps C T) (mo : MapEntityOps M P T)
    (v : NPC C M P) (g : Rand) (t : T) (r : NPC C M P × Rand × List (Call C P))
    (h : NPC.Advance E co mo v g t = some r) :
    ∀ c ∈ r.2.2, Call.modeFresh E co c ∧ Call.facingFresh co c := by
  have hS := (Step_inv E co mo v g t).2
  rw [Advance_eq] at h
  split at h
  · simp only [Option.some.injEq] at h
    subst h
    intro c hc
    exact ⟨(hS c hc).1, (hS c hc).2.1⟩
  · split_ifs at h
    · split at h
      · simp at h
      · next v2 path _ =>
        simp only [Option.some.injEq] at h
        subst h
        obtain ⟨-, -, -, -, cs2, hcs2, hfresh⟩ := setTarget_inv E co mo v2
          (NPC.Step E co mo v g t).2.1 path.Position DoneHook.next
        intro c hc
        simp only [hcs2, List.mem_append, List.mem_cons] at hc
        rcases hc with hc | hc | hc
        · exact ⟨(hS c hc).1, (hS c hc).2.1⟩
        · subst hc
          exact ⟨trivial, trivial⟩
        · exact ⟨(hfresh c hc).1, (hfresh c hc).2.1⟩
    · simp only [Option.some.injEq] at h
      subst h
      intro c hc
      exact ⟨(hS c hc).1, (hS c hc).2.1⟩

/-- C8: in `next`, in `rotate`, in the motion step of a frame and in a whole `Advance`,
every mode-set issued to the composite asks for a mode that differs from the mode the
composite reports at the moment of the call.  When the mode `next` computes equals the
reported mode, `next` issues no call and leaves the composite state, and so its played
count, untouched; when the mode `rotate` computes equals the reported mode, `rotate`
issues no mode-set and the composite is changed by the facing push at most. -/
theorem setMode_never_redundant (E : D2Enum) (co : CompositeOps C T)
    (mo : MapEntityOps M P T) (v : NPC C M P) (g : Rand) (d : Int) (t : T) :
    (∀ c ∈ (NPC.next (P := P) E co v g).2.2, Call.modeFresh E co c) ∧
    (∀ c ∈ (NPC.rotate E co mo v d).2, Call.modeFresh E co c) ∧
    (∀ c ∈ (NPC.Step E co mo v g t).2.2, Call.modeFresh E co c) ∧
    (∀ r ∈ NPC.Advance E co mo v g t, ∀ c ∈ r.2.2, Call.modeFresh E co c) ∧
    (co.GetAnimationMode v.composite = E.modeString (arrivalMode E v.action) →
      (NPC.next (P := P) E co v g).2.2 = [] ∧
      (NPC.next (P := P) E co v g).1.composite = v.composite ∧
      co.GetPlayedCount (NPC.next (P := P) E co v g).1.composite
        = co.GetPlayedCount v.composite) ∧
    (E.modeString (desiredMode E mo v.mapEntity) = co.GetAnimationMode v.composite →
      (NPC.rotate E co mo v d).2.filter Call.isSetMode = [] ∧
      ((NPC.rotate E co mo v d).1.composite = v.composite ∨
        (NPC.rotate E co mo v d).1.composite = co.SetDirection v.composite d)) := by
  refine ⟨fun c hc => (next_calls_fromCallback E co v g c hc).1,
    fun c hc => (rotate_calls_fromCallback E co mo v d c hc).1,
    fun c hc => ((Step_inv E co mo v g t).2 c hc).1,
    fun r hr c hc => (Advance_calls E co mo v g t r hr c hc).1, ?_, ?_⟩
  · intro h
    have hc : (NPC.next (P := P) E co v g).1.composite = v.composite := by
      rw [next_composite, if_neg (not_not.mpr h)]
    refine ⟨by rw [next_calls, if_neg (not_not.mpr h)], hc, by rw [hc]⟩
  · intro h
    rw [rotate_calls, rotate_composite, if_neg (not_not.mpr h), if_neg (not_not.mpr h)]
    split_ifs
    · exact ⟨rfl, Or.inr rfl⟩
    · exact ⟨rfl, Or.inl rfl⟩

/-- C9, as stated, fails: `CreateNPC` with facing 0 pushes facing 0 to a freshly
assembled composite that already reports facing 0. -/
theorem setDirection_never_redundant_counterexample :
    ∃ v g calls, createSample = some (Except.ok (v, g, calls)) ∧
      ∃ c ∈ calls, ¬ Call.facingFresh fakeComposite c := by
  refine ⟨_, _, _, rfl, _, List.mem_cons_of_mem _ (List.mem_singleton.mpr rfl), ?_⟩
  simp [Call.facingFresh, fakeComposite]

/-- C9 (amended): `rotate d` pushes `d` to the composite only if the facing the composite
reports differs from `d`; hence in `rotate`, in `next`, in the motion step of a frame and
in a whole `Advance` no facing push repeats the facing the composite reports at the
moment of the call.  `CreateNPC` pushes the initial facing once, whatever the composite
reports. -/
theorem rotate_setDirection_never_redundant (E : D2Enum) (co : CompositeOps C T)
    (mo : MapEntityOps M P T) (A : Assets C M) (v : NPC C M P) (g : Rand) (d : Int) (t : T)
    (x y : Int) (monstat : Option MonStatsRecord) :
    (∀ c ∈ (NPC.rotate E co mo v d).2, Call.facingFresh co c) ∧
    (∀ c ∈ (NPC.next (P := P) E co v g).2.2, Call.facingFresh co c) ∧
    (∀ c ∈ (NPC.Step E co mo v g t).2.2, Call.facingFresh co c) ∧
    (∀ r ∈ NPC.Advance E co mo v g t, ∀ c ∈ r.2.2, Call.facingFresh co c) ∧
    (∀ r, CreateNPC (P := P) E co mo A x y monstat d g = some (Except.ok r) →
      ∃ before, Call.SetDirection before d ∈ r.2.2) := by
  refine ⟨fun c hc => (rotate_calls_fromCallback E co mo v d c hc).2.1,
    fun c hc => (next_calls_fromCallback E co v g c hc).2.1,
    fun c hc => ((Step_inv E co mo v g t).2 c hc).2.1,
    fun r hr c hc => (Advance_calls E co mo v g t r hr c hc).2, ?_⟩
  intro r hr
  cases monstat with
  | none => simp [CreateNPC] at hr
  | some ms =>
    simp only [CreateNPC] at hr
    cases hex : A.MonStats2 ms.ExtraDataKey with
    | none => simp [hex] at hr
    | some ex =>
      simp only [hex] at hr
      split_ifs at hr
      all_goals
        split at hr
        · simp at hr
        · split at hr
          · simp at hr
          · split at hr
            · simp at hr
            · simp only [Option.some.injEq, Except.ok.injEq] at hr
              subst hr
              exact ⟨_, List.mem_cons_of_mem _ (List.mem_singleton.mpr rfl)⟩

/-! ## Claims about the direction callback `rotate` -/

/-- C10: `rotate d` computes the walking mode if the entity has not reached its motion
target and the neutral mode otherwise: any mode-set it issues asks for that mode, and
whenever the mode-set does not fail the composite reports that mode and the facing `d`
after `rotate d`.  The composite is assumed to report the mode of a successful mode-set
and the facing last pushed, and to keep its mode across a facing push. -/
theorem rotate_mode_and_facing (E : D2Enum) (co : CompositeOps C T)
    (mo : MapEntityOps M P T) (v : NPC C M P) (d : Int)
    (hSet : ∀ c m wc, (co.SetMode c m wc).2 = none →
      co.GetAnimationMode (co.SetMode c m wc).1 = E.modeString m)
    (hGet : ∀ c f, co.GetDirection (co.SetDirection c f) = f)
    (hKeep : ∀ c f, co.GetAnimationMode (co.SetDirection c f) = co.GetAnimationMode c)
    (hok : E.modeString (desiredMode E mo v.mapEntity) ≠ co.GetAnimationMode v.composite →
      (co.SetMode v.composite (desiredMode E mo v.mapEntity)
        (co.GetWeaponClass v.composite)).2 = none) :
    (mo.atTarget v.mapEntity = false →
      desiredMode E mo v.mapEntity = E.MonsterAnimationModeWalk) ∧
    (mo.atTarget v.mapEntity = true →
      desiredMode E mo v.mapEntity = E.MonsterAnimationModeNeutral) ∧
    (∀ before mode wc, Call.SetMode before mode wc ∈ (NPC.rotate E co mo v d).2 →
      mode = desiredMode E mo v.mapEntity) ∧
    co.GetAnimationMode (NPC.rotate E co mo v d).1.composite
      = E.modeString (desiredMode E mo v.mapEntity) ∧
    co.GetDirection (NPC.rotate E co mo v d).1.composite = d := by
  refine ⟨fun h => by simp [desiredMode, h], fun h => by simp [desiredMode, h], ?_, ?_, ?_⟩
  · intro before mode wc hmem
    rw [rotate_calls] at hmem
    split_ifs at hmem
    all_goals simp only [List.mem_cons, List.mem_singleton, List.not_mem_nil, or_false,
      Call.SetMode.injEq, reduceCtorEq] at hmem
    all_goals exact hmem.2.1
  · rw [rotate_composite]
    split_ifs with h1 h2 h3 h4
    · rw [hok h1] at h2
      simp at h2
    · rw [hKeep]
      exact hSet _ _ _ (hok h1)
    · exact hSet _ _ _ (hok h1)
    · rw [hKeep]
      exact (not_not.mp h1).symm
    · exact (not_not.mp h1).symm
  · rw [rotate_composite]
    split_ifs with h1 h2 h3 h4
    · rw [hok h1] at h2
      simp at h2
    · exact hGet _ _
    · exact not_not.mp h3
    · exact hGet _ _
    · exact not_not.mp h4

/-- Witness for C10: a heading change to facing 3 on an NPC that is under way while its
composite still reports the neutral mode and facing 0. -/
theorem rotate_mode_and_facing_witness :
    (fakeMotion.atTarget walkingNPC.mapEntity = false →
      desiredMode stdEnum fakeMotion walkingNPC.mapEntity
        = stdEnum.MonsterAnimationModeWalk) ∧
    (fakeMotion.atTarget walkingNPC.mapEntity = true →
      desiredMode stdEnum fakeMotion walkingNPC.mapEntity
        = stdEnum.MonsterAnimationModeNeutral) ∧
    (∀ before mode wc, Call.SetMode before mode wc ∈
        (NPC.rotate stdEnum fakeComposite fakeMotion walkingNPC 3).2 →
      mode = desiredMode stdEnum fakeMotion walkingNPC.mapEntity) ∧
    fakeComposite.GetAnimationMode
        (NPC.rotate stdEnum fakeComposite fakeMotion walkingNPC 3).1.composite
      = stdEnum.modeString (desiredMode stdEnum fakeMotion walkingNPC.mapEntity) ∧
    fakeComposite.GetDirection
        (NPC.rotate stdEnum fakeComposite fakeMotion walkingNPC 3).1.composite = 3 :=
  rotate_mode_and_facing stdEnum fakeComposite fakeMotion walkingNPC 3
    fakeComposite_SetMode_law (fun _ _ => rfl) (fun _ _ => rfl) (fun _ => rfl)

/-! ## Frames: lemmas -/

theorem NextPath_fields (v v1 : NPC C M P) (p : d2common.Path P)
    (h : v.NextPath = some (v1, p)) :
    v1.Paths = v.Paths ∧ v1.HasPaths = v.HasPaths ∧ v1.isDone = v.isDone ∧
      v1.repetitions = v.repetitions ∧ v1.action = v.action ∧ v1.name = v.name := by
  simp only [NPC.NextPath] at h
  split at h
  · simp at h
  · simp only [Option.some.injEq, Prod.mk.injEq] at h
    obtain ⟨h1, -⟩ := h
    subst h1
    split_ifs <;> exact ⟨rfl, rfl, rfl, rfl, rfl, rfl⟩

theorem Advance_idle (E : D2Enum) (co : CompositeOps C T) (mo : MapEntityOps M P T)
    (v : NPC C M P) (g : Rand) (t : T)
    (h : ¬ NPC.retirementDue co (NPC.Step E co mo v g t).1 t) :
    NPC.Advance E co mo v g t =
      some ({ (NPC.Step E co mo v g t).1 with
              composite := (co.Advance (NPC.Step E co mo v g t).1.composite t).1 },
            (NPC.Step E co mo v g t).2.1, (NPC.Step E co mo v g t).2.2) := by
  rw [Advance_eq]
  unfold NPC.retirementDue at h
  split
  · rfl
  · next herr =>
    have hw : ((NPC.Step E co mo v g t).1.HasPaths &&
        NPC.wait co { (NPC.Step E co mo v g t).1 with
          composite := (co.Advance (NPC.Step E co mo v g t).1.composite t).1 }) = false := by
      cases hh : (NPC.Step E co mo v g t).1.HasPaths
      · rfl
      · cases hd : (NPC.Step E co mo v g t).1.isDone
        · simp [NPC.wait, hd]
        · have h3 : ¬ co.GetPlayedCount (co.Advance (NPC.Step E co mo v g t).1.composite t).1
              > (NPC.Step E co mo v g t).1.repetitions := fun h3 => h ⟨herr, hh, hd, h3⟩
          simp [NPC.wait, hd, h3]
    simp only [hw, Bool.false_eq_true, if_false]

theorem Advance_fire (E : D2Enum) (co : CompositeOps C T) (mo : MapEntityOps M P T)
    (v : NPC C M P) (g : Rand) (t : T)
    (h : NPC.retirementDue co (NPC.Step E co mo v g t).1 t) :
    NPC.Advance E co mo v g t =
      match NPC.NextPath { (NPC.Step E co mo v g t).1 with
          composite := (co.Advance (NPC.Step E co mo v g t).1.composite t).1,
          isDone := false } with
      | none => none
      | some (v2, path) =>
        some ({ (NPC.setTarget E co mo v2 (NPC.Step E co mo v g t).2.1 path.Position
                  DoneHook.next).1 with action := path.Action },
              (NPC.setTarget E co mo v2 (NPC.Step E co mo v g t).2.1 path.Position
                  DoneHook.next).2.1,
              (NPC.Step E co mo v g t).2.2 ++
                (NPC.setTarget E co mo v2 (NPC.Step E co mo v g t).2.1 path.Position
                  DoneHook.next).2.2) := by
  rw [Advance_eq]
  obtain ⟨herr, hh, hd, h3⟩ := h
  have hw : ((NPC.Step E co mo v g t).1.HasPaths &&
      NPC.wait co { (NPC.Step E co mo v g t).1 with
        composite := (co.Advance (NPC.Step E co mo v g t).1.composite t).1 }) = true := by
    simp [NPC.wait, hh, hd, h3]
  rw [herr]
  simp only [hw, if_true]

theorem Advance_fields (E : D2Enum) (co : CompositeOps C T) (mo : MapEntityOps M P T)
    (v : NPC C M P) (g : Rand) (t : T) (r : NPC C M P × Rand × List (Call C P))
    (h : NPC.Advance E co mo v g t = some r) :
    r.1.Paths = v.Paths ∧ r.1.HasPaths = v.HasPaths ∧ r.1.name = v.name ∧
      r.1.repetitions = (NPC.Step E co mo v g t).1.repetitions := by
  obtain ⟨⟨hP, -, hH, -, hn⟩, -⟩ := Step_inv E co mo v g t
  by_cases hdue : NPC.retirementDue co (NPC.Step E co mo v g t).1 t
  · rw [Advance_fire E co mo v g t hdue] at h
    split at h
    · simp at h
    · next v2 path hnext =>
      simp only [Option.some.injEq] at h
      subst h
      obtain ⟨n1, n2, -, n4, -, n6⟩ := NextPath_fields _ _ _ hnext
      obtain ⟨⟨sP, -, sH, -, sn⟩, -, sR, -, -⟩ := setTarget_inv E co mo v2
        (NPC.Step E co mo v g t).2.1 path.Position DoneHook.next
      exact ⟨sP.trans (n1.trans hP), sH.trans (n2.trans hH), sn.trans (n6.trans hn),
        sR.trans n4⟩
  · rw [Advance_idle E co mo v g t hdue] at h
    simp only [Option.some.injEq] at h
    subst h
    exact ⟨hP, hH, hn, rfl⟩

theorem dispatch_rest (E : D2Enum) (co : CompositeOps C T) (mo : MapEntityOps M P T)
    (v : NPC C M P) (g : Rand) (m : M) (cb : Callback)
    (hd : v.isDone = true) (hr : v.repetitions = 0) :
    (NPC.dispatch E co mo v g m cb).1.isDone = true ∧
      (NPC.dispatch E co mo v g m cb).1.repetitions = 0 := by
  cases cb with
  | done hook =>
    cases hook
    obtain ⟨c, hc⟩ := next_fst (P := P) E co { v with mapEntity := m } g
    simp only [NPC.dispatch, hc, and_self]
  | directioner d =>
    obtain ⟨h1, h2⟩ := dispatch_directioner E co mo v g m d
    exact ⟨h1.trans hd, h2.trans hr⟩

theorem runCallbacks_rest (E : D2Enum) (co : CompositeOps C T) (mo : MapEntityOps M P T)
    (cbs : List (M × Callback)) (v : NPC C M P) (g : Rand)
    (hd : v.isDone = true) (hr : v.repetitions = 0) :
    (NPC.runCallbacks E co mo v g cbs).1.isDone = true ∧
      (NPC.runCallbacks E co mo v g cbs).1.repetitions = 0 := by
  induction cbs generalizing v g with
  | nil => exact ⟨hd, hr⟩
  | cons x rest ih =>
    obtain ⟨h1, h2⟩ := dispatch_rest E co mo v g x.1 x.2 hd hr
    exact ih _ _ h1 h2

theorem runCallbacks_noDone (E : D2Enum) (co : CompositeOps C T) (mo : MapEntityOps M P T)
    (cbs : List (M × Callback)) (v : NPC C M P) (g : Rand)
    (h : ∀ x ∈ cbs, x.2.isDone = false) :
    (NPC.runCallbacks E co mo v g cbs).1.isDone = v.isDone ∧
      (NPC.runCallbacks E co mo v g cbs).1.repetitions = v.repetitions := by
  induction cbs generalizing v g with
  | nil => exact ⟨rfl, rfl⟩
  | cons x rest ih =>
    obtain ⟨m, cb⟩ := x
    have hx := h (m, cb) (List.mem_cons_self _ _)
    cases cb with
    | done hook => simp [Callback.isDone] at hx
    | directioner d =>
      obtain ⟨h1, h2⟩ := dispatch_directioner E co mo v g m d
      obtain ⟨h3, h4⟩ := ih (NPC.dispatch E co mo v g m (Callback.directioner d)).1
        (NPC.dispatch E co mo v g m (Callback.directioner d)).2.1
        (fun y hy => h y (List.mem_cons_of_mem _ hy))
      simp only [NPC.runCallbacks]
      exact ⟨h3.trans h1, h4.trans h2⟩

theorem Step_rest (E : D2Enum) (co : CompositeOps C T) (mo : MapEntityOps M P T)
    (v : NPC C M P) (g : Rand) (t : T) (hd : v.isDone = true) (hr : v.repetitions = 0) :
    (NPC.Step E co mo v g t).1.isDone = true ∧ (NPC.Step E co mo v g t).1.repetitions = 0 :=
  runCallbacks_rest E co mo (mo.Step v.mapEntity t).1 v g hd hr

theorem Step_noDone (E : D2Enum) (co : CompositeOps C T) (mo : MapEntityOps M P T)
    (v : NPC C M P) (g : Rand) (t : T)
    (h : ∀ x ∈ (mo.Step v.mapEntity t).1, x.2.isDone = false) :
    (NPC.Step E co mo v g t).1.isDone = v.isDone ∧
      (NPC.Step E co mo v g t).1.repetitions = v.repetitions :=
  runCallbacks_noDone E co mo (mo.Step v.mapEntity t).1 v g h

theorem runCallbacks_repetitions_zero (E : D2Enum) (co : CompositeOps C T)
    (mo : MapEntityOps M P T) (cbs : List (M × Callback)) (v : NPC C M P) (g : Rand)
    (hr : v.repetitions = 0) : (NPC.runCallbacks E co mo v g cbs).1.repetitions = 0 := by
  induction cbs generalizing v g with
  | nil => exact hr
  | cons x rest ih =>
    obtain ⟨m, cb⟩ := x
    apply ih
    cases cb with
    | done hook =>
      cases hook
      obtain ⟨c, hc⟩ := next_fst (P := P) E co { v with mapEntity := m } g
      simp only [NPC.dispatch, hc]
    | directioner d => exact (dispatch_directioner E co mo v g m d).2.trans hr

theorem CreateNPC_fields (E : D2Enum) (co : CompositeOps C T) (mo : MapEntityOps M P T)
    (A : Assets C M) (x y : Int) (monstat : Option MonStatsRecord) (d : Int) (g : Rand)
    (r : NPC C M P × Rand × List (Call C P))
    (h : CreateNPC E co mo A x y monstat d g = some (Except.ok r)) :
    r.1.Paths = [] ∧ r.1.HasPaths = false ∧ r.1.path = 0 ∧ r.1.isDone = false ∧
      r.1.repetitions = 0 ∧
      ∃ ms, monstat = some ms ∧
        r.1.name = if ms.IsInteractable = true then A.TranslateString ms.NameString else "" := by
  cases monstat with
  | none => simp [CreateNPC] at h
  | some ms =>
    simp only [CreateNPC] at h
    cases hex : A.MonStats2 ms.ExtraDataKey with
    | none => simp [hex] at h
    | some ex =>
      simp only [hex] at h
      split at h
      · simp at h
      · split at h
        · simp at h
        · split at h
          · simp at h
          · split at h
            · simp at h
            · simp only [Option.some.injEq, Except.ok.injEq] at h
              subst h
              exact ⟨rfl, rfl, rfl, rfl, rfl, ms, rfl, rfl⟩

theorem repetitions_zero_invariant (E : D2Enum) (co : CompositeOps C T)
    (mo : MapEntityOps M P T) (A : Assets C M) (v : NPC C M P)
    (ws : List (d2common.Path P)) (g : Rand) (d : Int) (t : T) (x y : Int)
    (monstat : Option MonStatsRecord) :
    (∀ r, CreateNPC (P := P) E co mo A x y monstat d g = some (Except.ok r) →
      r.1.repetitions = 0) ∧
    (NPC.next (P := P) E co v g).1.repetitions = 0 ∧
    (v.repetitions = 0 →
      (v.SetPaths ws).repetitions = 0 ∧
      (∀ r, v.NextPath = some r → r.1.repetitions = 0) ∧
      (NPC.rotate E co mo v d).1.repetitions = 0 ∧
      (∀ r, NPC.Advance E co mo v g t = some r → r.1.repetitions = 0)) := by
  refine ⟨fun r hr => (CreateNPC_fields E co mo A x y monstat d g r hr).2.2.2.2.1, ?_, ?_⟩
  · obtain ⟨c, hc⟩ := next_fst (P := P) E co v g
    rw [hc]
  · intro h0
    refine ⟨h0, fun r hr => ((NextPath_fields v r.1 r.2 hr).2.2.2.1).trans h0, ?_, ?_⟩
    · obtain ⟨c, hc⟩ := rotate_fst E co mo v d
      rw [hc]
      exact h0
    · intro r hr
      rw [(Advance_fields E co mo v g t r hr).2.2.2]
      exact runCallbacks_repetitions_zero E co mo (mo.Step v.mapEntity t).1 v g h0

/-! ## Claims about the path flags -/

/-- C11: `SetPaths ws` sets `isDone` to true and `HasPaths` to `len(ws) > 0`; and
`HasPaths == (len(Paths) > 0)` holds in the NPC `CreateNPC` returns, holds after
`SetPaths`, and is preserved by `NextPath`, `Advance`, `next` and `rotate`. -/
theorem SetPaths_flags_and_invariant (E : D2Enum) (co : CompositeOps C T)
    (mo : MapEntityOps M P T) (A : Assets C M) (v : NPC C M P)
    (ws : List (d2common.Path P)) (g : Rand) (d : Int) (t : T) (x y : Int)
    (monstat : Option MonStatsRecord) :
    (v.SetPaths ws).isDone = true ∧
    (v.SetPaths ws).HasPaths = decide (ws.length > 0) ∧
    (v.SetPaths ws).pathsFlagOk ∧
    (∀ r, CreateNPC (P := P) E co mo A x y monstat d g = some (Except.ok r) →
      r.1.pathsFlagOk) ∧
    (v.pathsFlagOk →
      (∀ r, v.NextPath = some r → r.1.pathsFlagOk) ∧
      (∀ r, NPC.Advance E co mo v g t = some r → r.1.pathsFlagOk) ∧
      (NPC.next (P := P) E co v g).1.pathsFlagOk ∧
      (NPC.rotate E co mo v d).1.pathsFlagOk) := by
  refine ⟨rfl, rfl, rfl, ?_, ?_⟩
  · intro r hr
    obtain ⟨hP, hH, -⟩ := CreateNPC_fields E co mo A x y monstat d g r hr
    simp [NPC.pathsFlagOk, hP, hH]
  · intro hv
    unfold NPC.pathsFlagOk at hv ⊢
    refine ⟨?_, ?_, ?_, ?_⟩
    · intro r hr
      obtain ⟨h1, h2, -⟩ := NextPath_fields v r.1 r.2 hr
      rw [h1, h2]
      exact hv
    · intro r hr
      obtain ⟨h1, h2, -⟩ := Advance_fields E co mo v g t r hr
      rw [h1, h2]
      exact hv
    · obtain ⟨c, hc⟩ := next_fst (P := P) E co v g
      rw [hc]
      exact hv
    · obtain ⟨c, hc⟩ := rotate_fst E co mo v d
      rw [hc]
      exact hv

theorem AdvanceN_inert (E : D2Enum) (co : CompositeOps C T) (mo : MapEntityOps M P T)
    (ticks : List T) (u : NPC C M P) (g : Rand)
    (hH : u.HasPaths = false) (hd : u.isDone = true) (hr : u.repetitions = 0) :
    ∃ r, NPC.AdvanceN E co mo ticks u g = some r ∧ r.1.HasPaths = false ∧
      r.1.isDone = true ∧ r.1.repetitions = 0 ∧ r.1.path = u.path ∧
      r.1.action = u.action ∧ r.1.Paths = u.Paths ∧
      r.2.2.filter Call.isSetTarget = [] := by
  induction ticks generalizing u g with
  | nil => exact ⟨_, rfl, hH, hd, hr, rfl, rfl, rfl, rfl⟩
  | cons t ts ih =>
    obtain ⟨⟨sP, sp, sH, sa, -⟩, scalls⟩ := Step_inv E co mo u g t
    obtain ⟨sd, sr⟩ := Step_rest E co mo u g t hd hr
    have hidle : ¬ NPC.retirementDue co (NPC.Step E co mo u g t).1 t := by
      intro hdue
      have := hdue.2.1
      rw [sH, hH] at this
      exact Bool.false_ne_true this
    have hA := Advance_idle E co mo u g t hidle
    obtain ⟨r, hrun, r1, r2, r3, r4, r5, r6, r7⟩ := ih
      { (NPC.Step E co mo u g t).1 with
        composite := (co.Advance (NPC.Step E co mo u g t).1.composite t).1 }
      (NPC.Step E co mo u g t).2.1 (sH.trans hH) sd sr
    refine ⟨(r.1, r.2.1, (NPC.Step E co mo u g t).2.2 ++ r.2.2), ?_, r1, r2, r3,
      r4.trans sp, r5.trans sa, r6.trans sP, ?_⟩
    · simp only [NPC.AdvanceN, hA, hrun]
    · rw [List.filter_append, filter_fromCallback E co _ scalls, r7]
      rfl

/-- C12: after `SetPaths` with an empty list `HasPaths` is false, and any number of
subsequent `Advance` calls return without performing the retirement transition: `isDone`,
the cursor index, `action` and `repetitions` are what they were after `SetPaths` and no
motion target is armed, for every composite and so whatever its played count.  The NPC is
taken in a state with `repetitions = 0`, as every state the controller produces is. -/
theorem Advance_without_paths (E : D2Enum) (co : CompositeOps C T)
    (mo : MapEntityOps M P T) (v : NPC C M P) (g : Rand) (ticks : List T)
    (hrep : v.repetitions = 0) :
    (v.SetPaths []).HasPaths = false ∧
    ∃ r, NPC.AdvanceN E co mo ticks (v.SetPaths []) g = some r ∧
      r.1.HasPaths = false ∧
      r.1.isDone = (v.SetPaths []).isDone ∧
      r.1.path = (v.SetPaths []).path ∧
      r.1.action = (v.SetPaths []).action ∧
      r.1.repetitions = (v.SetPaths []).repetitions ∧
      r.2.2.filter Call.isSetTarget = [] := by
  refine ⟨rfl, ?_⟩
  obtain ⟨r, hrun, r1, r2, r3, r4, r5, -, r7⟩ :=
    AdvanceN_inert E co mo ticks (v.SetPaths []) g rfl rfl hrep
  exact ⟨r, hrun, r1, r2, r4, r5, r3.trans hrep.symm, r7⟩

/-- Witness for C12: three frames on an NPC whose two waypoints were replaced by none,
with a composite that has played a loop more each frame. -/
theorem Advance_without_paths_witness :
    (NPC.SetPaths (sampleNPC samplePaths 1 4) []).HasPaths = false ∧
    ∃ r, NPC.AdvanceN stdEnum fakeComposite fakeMotion [0, 0, 0]
        (NPC.SetPaths (sampleNPC samplePaths 1 4) []) (constRand 0) = some r ∧
      r.1.HasPaths = false ∧
      r.1.isDone = (NPC.SetPaths (sampleNPC samplePaths 1 4) []).isDone ∧
      r.1.path = (NPC.SetPaths (sampleNPC samplePaths 1 4) []).path ∧
      r.1.action = (NPC.SetPaths (sampleNPC samplePaths 1 4) []).action ∧
      r.1.repetitions = (NPC.SetPaths (sampleNPC samplePaths 1 4) []).repetitions ∧
      r.2.2.filter Call.isSetTarget = [] :=
  Advance_without_paths stdEnum fakeComposite fakeMotion (sampleNPC samplePaths 1 4)
    (constRand 0) [0, 0, 0] rfl

/-- C13 (code evaluated at the failing input): on a freshly constructed NPC, `SetPaths`
with the single waypoint makes three `NextPath` calls return that waypoint; but once the
cursor has moved to index 1 on a two-waypoint list, `SetPaths` with the single waypoint
leaves the cursor at 1 and the next `NextPath` call panics instead of returning it. -/
theorem SetPaths_single_NextPath_panics :
    ∃ v0 g calls v2 p,
      createSample = some (Except.ok (v0, g, calls)) ∧
      ((v0.SetPaths [loneWaypoint]).NextPathN 3).map (fun r => r.2)
        = some [loneWaypoint, loneWaypoint, loneWaypoint] ∧
      (v0.SetPaths samplePaths).NextPath = some (v2, p) ∧
      (v2.SetPaths [loneWaypoint]).path = 1 ∧
      (v2.SetPaths [loneWaypoint]).NextPath = none :=
  ⟨_, _, _, _, _, rfl, rfl, rfl, rfl, rfl⟩

/-! ## Claims about construction -/

/-- C14 (code evaluated at the failing input): `CreateNPC` discards the error of
`LoadComposite`.  When assembly yields no composite the following mode-set dereferences
nil and the call panics rather than returning an error; when assembly yields a composite
together with an error, `CreateNPC` returns an NPC although assembly failed. -/
theorem CreateNPC_assembly_error_discarded :
    (brokenAssets.LoadComposite stdEnum.ObjectTypeCharacter cainStats.AnimationDirectoryToken
        brokenAssets.PaletteUnits).2 = some "composite not found" ∧
    CreateNPC (P := Int × Int) stdEnum fakeComposite fakeMotion brokenAssets 0 0
        (some cainStats) 0 (constRand 0) = none ∧
    (flaggedAssets.LoadComposite stdEnum.ObjectTypeCharacter
        cainStats.AnimationDirectoryToken flaggedAssets.PaletteUnits).2
        = some "palette not found" ∧
    ∃ r, CreateNPC (P := Int × Int) stdEnum fakeComposite fakeMotion flaggedAssets 0 0
        (some cainStats) 0 (constRand 0) = some (Except.ok r) :=
  ⟨rfl, rfl, rfl, _, rfl⟩

/-- C15: `selectEquip` returns the empty identifier for an empty candidate list, leaving
the random source alone; for a non-empty list it draws an index `r` with
`0 ≤ r < len(list)` and returns the candidate at index `r`, which is an element of the
list. -/
theorem selectEquip_picks_candidate (slice : List String) (g : Rand) :
    (slice = [] → (selectEquip slice g).1 = "" ∧ (selectEquip slice g).2.pos = g.pos) ∧
    (slice ≠ [] →
      (g.Intn slice.length).1 < slice.length ∧
      slice[(g.Intn slice.length).1]? = some (selectEquip slice g).1 ∧
      (selectEquip slice g).1 ∈ slice ∧
      (selectEquip slice g).2.pos = g.pos + 1) := by
  constructor
  · intro h
    subst h
    exact ⟨rfl, rfl⟩
  · intro h
    have hlen : 0 < slice.length := List.length_pos.mpr h
    have hr : (g.Intn slice.length).1 < slice.length := Nat.mod_lt _ hlen
    have hne : slice.length ≠ 0 := by omega
    have hsel : (selectEquip slice g).1 = slice.getD (g.Intn slice.length).1 "" := by
      simp [selectEquip, hne]
    have hget : slice[(g.Intn slice.length).1]? = some (selectEquip slice g).1 := by
      rw [hsel, List.getD_eq_getElem?_getD, List.getElem?_eq_getElem hr]
      rfl
    have hmem : (selectEquip slice g).1 ∈ slice := by
      rw [hsel, List.getD_eq_getElem?_getD, List.getElem?_eq_getElem hr]
      exact List.getElem_mem hr
    refine ⟨hr, hget, hmem, ?_⟩
    simp [selectEquip, hne, Rand.Intn]

/-- C16: an NPC that `CreateNPC` builds from a non-interactable stats record has no name
and `Selectable` returns false; an NPC whose name is set reports `Selectable` true; and
`Selectable` is true exactly when `Name` is non-empty. -/
theorem Selectable_iff_named (E : D2Enum) (co : CompositeOps C T) (mo : MapEntityOps M P T)
    (A : Assets C M) (x y : Int) (ms : MonStatsRecord) (d : Int) (g : Rand)
    (v : NPC C M P) (hni : ms.IsInteractable = false) :
    (∀ r, CreateNPC (P := P) E co mo A x y (some ms) d g = some (Except.ok r) →
      r.1.Name = "" ∧ r.1.Selectable = false) ∧
    (v.Name ≠ "" → v.Selectable = true) ∧
    (v.Selectable = true ↔ v.Name ≠ "") := by
  refine ⟨?_, ?_, ?_⟩
  · intro r hr
    obtain ⟨-, -, -, -, -, ms1, hms, hname⟩ := CreateNPC_fields E co mo A x y _ d g r hr
    simp only [Option.some.injEq] at hms
    subst hms
    have hn : r.1.name = "" := by simpa [hni] using hname
    simp [NPC.Name, NPC.Selectable, hn]
  · intro h
    simpa [NPC.Name, NPC.Selectable] using h
  · simp [NPC.Name, NPC.Selectable]

/-- Witness for C16: construction from the non-interactable record succeeds over the
doubles. -/
theorem Selectable_iff_named_witness :
    (∃ r, CreateNPC (P := Int × Int) stdEnum fakeComposite fakeMotion fakeAssets 0 0
        (some plainStats) 0 (constRand 0) = some (Except.ok r)) ∧
    (∀ r, CreateNPC (P := Int × Int) stdEnum fakeComposite fakeMotion fakeAssets 0 0
        (some plainStats) 0 (constRand 0) = some (Except.ok r) →
      r.1.Name = "" ∧ r.1.Selectable = false) ∧
    ((sampleNPC samplePaths 0 0).Name ≠ "" → (sampleNPC samplePaths 0 0).Selectable = true) ∧
    ((sampleNPC samplePaths 0 0).Selectable = true ↔ (sampleNPC samplePaths 0 0).Name ≠ "") :=
  ⟨⟨_, rfl⟩,
    Selectable_iff_named stdEnum fakeComposite fakeMotion fakeAssets 0 0 plainStats 0
      (constRand 0) (sampleNPC samplePaths 0 0) rfl⟩

/-! ## Claims about frames -/

theorem AdvanceN_quiet (E : D2Enum) (co : CompositeOps C T) (mo : MapEntityOps M P T)
    (ticks : List T) (u : NPC C M P) (g : Rand) (r : NPC C M P × Rand × List (Call C P))
    (hrun : NPC.AdvanceN E co mo ticks u g = some r)
    (hquiet : r.2.2.filter Call.isSetTarget = []) :
    r.1.path = u.path ∧ r.1.Paths = u.Paths ∧ r.1.HasPaths = u.HasPaths := by
  induction ticks generalizing u g r with
  | nil =>
    simp only [NPC.AdvanceN, Option.some.injEq] at hrun
    subst hrun
    exact ⟨rfl, rfl, rfl⟩
  | cons t ts ih =>
    simp only [NPC.AdvanceN] at hrun
    split at hrun
    · simp at hrun
    · next v1 g1 calls1 hA =>
      split at hrun
      · simp at hrun
      · next v2 g2 calls2 hN =>
        simp only [Option.some.injEq] at hrun
        subst hrun
        simp only [List.filter_append, List.append_eq_nil] at hquiet
        obtain ⟨hq1, hq2⟩ := hquiet
        obtain ⟨i1, i2, i3⟩ := ih v1 g1 (v2, g2, calls2) hN hq2
        obtain ⟨⟨sP, sp, sH, -, -⟩, -⟩ := Step_inv E co mo u g t
        have hidle : ¬ NPC.retirementDue co (NPC.Step E co mo u g t).1 t := by
          intro hdue
          rw [Advance_fire E co mo u g t hdue] at hA
          split at hA
          · simp at hA
          · next w2 path _ =>
            simp only [Option.some.injEq, Prod.mk.injEq] at hA
            obtain ⟨-, -, hc⟩ := hA
            obtain ⟨-, -, -, -, cs2, hcs2, -⟩ := setTarget_inv E co mo w2
              (NPC.Step E co mo u g t).2.1 path.Position DoneHook.next
            rw [← hc, hcs2, List.filter_append, List.filter_cons] at hq1
            simp [Call.isSetTarget] at hq1
        rw [Advance_idle E co mo u g t hidle] at hA
        simp only [Option.some.injEq, Prod.mk.injEq] at hA
        obtain ⟨hv1, -, -⟩ := hA
        subst hv1
        exact ⟨i1.trans sp, i2.trans sP, i3.trans sH⟩

/-- C17, as stated, fails: construct an NPC, assign the two waypoints and run two frames
(a retirement, then the walk to the new target).  At the start of the third frame the NPC
is not at rest; the motion step of that frame runs the arrival callback, which sets
`isDone` and pushes the neutral mode, and then the playback advance fails: `isDone` has
gone from false to true in a frame whose playback failed. -/
theorem Advance_playback_failure_counterexample :
    ∃ v0 g calls r,
      createSample = some (Except.ok (v0, g, calls)) ∧
      NPC.AdvanceN stdEnum flakyComposite fakeMotion [1, 1] (v0.SetPaths samplePaths) g
        = some r ∧
      r.1.isDone = false ∧
      (flakyComposite.Advance
        (NPC.Step stdEnum flakyComposite fakeMotion r.1 r.2.1 99).1.composite 99).2
        = some "advance failed" ∧
      (NPC.Advance stdEnum flakyComposite fakeMotion r.1 r.2.1 99).map
        (fun q => (q.1.isDone, q.1.repetitions, q.1.path, q.2.2.map Call.isSetMode))
        = some (true, 0, 1, [true]) :=
  ⟨_, _, _, _, rfl, rfl, rfl, rfl, rfl⟩

/-- C17 (amended): when the composite's playback advance fails, `Advance` returns normally
with the NPC the motion step left, the composite state the failed advance left, and the
calls of the motion step, arrival callback included if the step ran it: the retirement
check is skipped, so `isDone`, `repetitions`, the cursor index and `action` are those
after the motion step and no motion target is armed, whether or not the three retirement
conditions hold.  A motion step that runs no completion hook leaves `isDone` and
`repetitions` as they were before the frame. -/
theorem Advance_absorbs_playback_failure (E : D2Enum) (co : CompositeOps C T)
    (mo : MapEntityOps M P T) (v : NPC C M P) (g : Rand) (t : T) (e : Error)
    (hfail : (co.Advance (NPC.Step E co mo v g t).1.composite t).2 = some e) :
    ∃ r, NPC.Advance E co mo v g t = some r ∧
      r.1 = { (NPC.Step E co mo v g t).1 with
              composite := (co.Advance (NPC.Step E co mo v g t).1.composite t).1 } ∧
      r.1.mapEntity = (mo.Step v.mapEntity t).2 ∧
      r.1.isDone = (NPC.Step E co mo v g t).1.isDone ∧
      r.1.repetitions = (NPC.Step E co mo v g t).1.repetitions ∧
      r.1.path = v.path ∧ r.1.action = v.action ∧
      r.2.2.filter Call.isSetTarget = [] ∧
      ((∀ x ∈ (mo.Step v.mapEntity t).1, x.2.isDone = false) →
        r.1.isDone = v.isDone ∧ r.1.repetitions = v.repetitions) := by
  have hidle : ¬ NPC.retirementDue co (NPC.Step E co mo v g t).1 t := by
    intro hdue
    have h1 := hdue.1
    rw [hfail] at h1
    simp at h1
  obtain ⟨⟨-, sp, -, sa, -⟩, scalls⟩ := Step_inv E co mo v g t
  exact ⟨_, Advance_idle E co mo v g t hidle, rfl, rfl, rfl, rfl, sp, sa,
    filter_fromCallback E co _ scalls, fun h => Step_noDone E co mo v g t h⟩

/-- Witness for C17: the NPC that is due for retirement on every count while its composite
fails the playback advance. -/
theorem Advance_absorbs_playback_failure_witness :
    NPC.retirementClaimed fakeComposite
        (NPC.Step stdEnum fakeComposite fakeMotion stalledNPC (constRand 0) 0).1 0 ∧
    ∃ r, NPC.Advance stdEnum fakeComposite fakeMotion stalledNPC (constRand 0) 0 = some r ∧
      r.1 = { (NPC.Step stdEnum fakeComposite fakeMotion stalledNPC (constRand 0) 0).1 with
              composite := (fakeComposite.Advance
                (NPC.Step stdEnum fakeComposite fakeMotion stalledNPC
                  (constRand 0) 0).1.composite 0).1 } ∧
      r.1.mapEntity = (fakeMotion.Step stalledNPC.mapEntity 0).2 ∧
      r.1.isDone = (NPC.Step stdEnum fakeComposite fakeMotion stalledNPC
        (constRand 0) 0).1.isDone ∧
      r.1.repetitions = (NPC.Step stdEnum fakeComposite fakeMotion stalledNPC
        (constRand 0) 0).1.repetitions ∧
      r.1.path = stalledNPC.path ∧ r.1.action = stalledNPC.action ∧
      r.2.2.filter Call.isSetTarget = [] ∧
      ((∀ x ∈ (fakeMotion.Step stalledNPC.mapEntity 0).1, x.2.isDone = false) →
        r.1.isDone = stalledNPC.isDone ∧ r.1.repetitions = stalledNPC.repetitions) :=
  ⟨⟨rfl, rfl, by decide⟩,
    Advance_absorbs_playback_failure stdEnum fakeComposite fakeMotion stalledNPC
      (constRand 0) 0 "advance failed" rfl⟩

/-- C18: `repetitions` is written only by `next`.  `SetPaths`, `NextPath`, `rotate` and
the arming of a target leave it unchanged; `Advance` ends with the value its motion step
left, retirement transition included, and the motion step changes it only by running the
completion hook `next`: with no completion hook run in the frame, and also from any state
with `repetitions = 0`, `Advance` leaves it as it was before the frame. -/
theorem repetitions_written_only_by_next (E : D2Enum) (co : CompositeOps C T)
    (mo : MapEntityOps M P T) (v : NPC C M P) (ws : List (d2common.Path P)) (g : Rand)
    (d : Int) (t : T) :
    (v.SetPaths ws).repetitions = v.repetitions ∧
    (∀ r, v.NextPath = some r → r.1.repetitions = v.repetitions) ∧
    (NPC.rotate E co mo v d).1.repetitions = v.repetitions ∧
    (∀ p h, (NPC.setTarget E co mo v g p h).1.repetitions = v.repetitions) ∧
    (∀ r, NPC.Advance E co mo v g t = some r →
      r.1.repetitions = (NPC.Step E co mo v g t).1.repetitions) ∧
    ((∀ x ∈ (mo.Step v.mapEntity t).1, x.2.isDone = false) →
      ∀ r, NPC.Advance E co mo v g t = some r → r.1.repetitions = v.repetitions) ∧
    (v.repetitions = 0 →
      ∀ r, NPC.Advance E co mo v g t = some r → r.1.repetitions = v.repetitions) := by
  refine ⟨rfl, ?_, ?_, ?_, ?_, ?_, ?_⟩
  · intro r hr
    exact (NextPath_fields v r.1 r.2 hr).2.2.2.1
  · obtain ⟨c, hc⟩ := rotate_fst E co mo v d
    rw [hc]
  · intro p h
    exact (setTarget_inv E co mo v g p h).2.2.1
  · intro r hr
    exact (Advance_fields E co mo v g t r hr).2.2.2
  · intro hno r hr
    exact ((Advance_fields E co mo v g t r hr).2.2.2).trans (Step_noDone E co mo v g t hno).2
  · intro h0 r hr
    rw [(Advance_fields E co mo v g t r hr).2.2.2, h0]
    exact runCallbacks_repetitions_zero E co mo (mo.Step v.mapEntity t).1 v g h0

/-- C19: give an NPC whose cursor index is 0, as a freshly constructed one has, a path
list of length `N ≥ 1` via `SetPaths`.  After any frames in which no target was armed,
the first retirement transition arms the waypoint at index `1 mod N` and leaves the
cursor there: for `N ≥ 2` it is the second waypoint of the list, not the first. -/
theorem first_retirement_arms_second (E : D2Enum) (co : CompositeOps C T)
    (mo : MapEntityOps M P T) (v : NPC C M P) (ws : List (d2common.Path P)) (g : Rand)
    (ticks : List T) (t : T) (r : NPC C M P × Rand × List (Call C P))
    (hfresh : v.path = 0) (hN : 1 ≤ ws.length)
    (hrun : NPC.AdvanceN E co mo ticks (v.SetPaths ws) g = some r)
    (hquiet : r.2.2.filter Call.isSetTarget = [])
    (hdue : NPC.retirementDue co (NPC.Step E co mo r.1 r.2.1 t).1 t) :
    ∃ w r2, index ws (1 % (ws.length : Int)) = some w ∧
      NPC.Advance E co mo r.1 r.2.1 t = some r2 ∧
      r2.1.path = 1 % (ws.length : Int) ∧
      r2.2.2.filter Call.isSetTarget = [Call.setTarget w.Position DoneHook.next] ∧
      (2 ≤ ws.length → r2.1.path = 1 ∧ ws[1]? = some w) := by
  obtain ⟨q1, q2, -⟩ := AdvanceN_quiet E co mo ticks (v.SetPaths ws) g r hrun hquiet
  have hp : r.1.path = 0 := q1.trans hfresh
  have hP : r.1.Paths = ws := q2
  obtain ⟨⟨sP, sp, -, -, -⟩, scalls⟩ := Step_inv E co mo r.1 r.2.1 t
  obtain ⟨w, hstep, hidxw⟩ := NextPath_step
    { (NPC.Step E co mo r.1 r.2.1 t).1 with
      composite := (co.Advance (NPC.Step E co mo r.1 r.2.1 t).1.composite t).1,
      isDone := false }
    (by simp [sp, hp]) (by simp only [sp, hp, sP, hP]; omega)
  simp only at hstep hidxw
  have hval : ((NPC.Step E co mo r.1 r.2.1 t).1.path + 1) %
      ((NPC.Step E co mo r.1 r.2.1 t).1.Paths.length : Int) = 1 % (ws.length : Int) := by
    rw [sp, hp, sP, hP, zero_add]
  have hA := Advance_fire E co mo r.1 r.2.1 t hdue
  simp only at hA
  rw [hstep] at hA
  simp only at hA
  obtain ⟨⟨-, tp, -, -, -⟩, -, -, -, cs2, hcs2, hfresh2⟩ := setTarget_inv E co mo
    { (NPC.Step E co mo r.1 r.2.1 t).1 with
      composite := (co.Advance (NPC.Step E co mo r.1 r.2.1 t).1.composite t).1,
      isDone := false,
      path := ((NPC.Step E co mo r.1 r.2.1 t).1.path + 1) %
        ((NPC.Step E co mo r.1 r.2.1 t).1.Paths.length : Int) }
    (NPC.Step E co mo r.1 r.2.1 t).2.1 w.Position DoneHook.next
  simp only at tp
  have hidx1 : index ws (1 % (ws.length : Int)) = some w := by
    rw [← hval, ← hP, ← sP]
    exact hidxw
  refine ⟨w, _, hidx1, hA, tp.trans hval, ?_, ?_⟩
  · simp only
    rw [List.filter_append, filter_fromCallback E co _ scalls, hcs2, List.nil_append,
      List.filter_cons, filter_fromCallback E co cs2 hfresh2]
    rfl
  · intro h2
    have h1 : (1 : Int) % (ws.length : Int) = 1 := Int.emod_eq_of_lt (by omega) (by omega)
    refine ⟨(tp.trans hval).trans h1, ?_⟩
    rw [h1] at hidx1
    simpa [index] using hidx1

/-- Witness for C19: the two-waypoint list on an NPC with cursor 0; the first frame
already retires. -/
theorem first_retirement_arms_second_witness :
    ∃ w r2, index samplePaths (1 % (samplePaths.length : Int)) = some w ∧
      NPC.Advance stdEnum fakeComposite fakeMotion
        (NPC.SetPaths (sampleNPC [] 0 0) samplePaths, constRand 0,
          ([] : List (Call FakeComposite (Int × Int)))).1
        (NPC.SetPaths (sampleNPC [] 0 0) samplePaths, constRand 0,
          ([] : List (Call FakeComposite (Int × Int)))).2.1 0 = some r2 ∧
      r2.1.path = 1 % (samplePaths.length : Int) ∧
      r2.2.2.filter Call.isSetTarget = [Call.setTarget w.Position DoneHook.next] ∧
      (2 ≤ samplePaths.length → r2.1.path = 1 ∧ samplePaths[1]? = some w) :=
  first_retirement_arms_second stdEnum fakeComposite fakeMotion (sampleNPC [] 0 0)
    samplePaths (constRand 0) [] 0
    (NPC.SetPaths (sampleNPC [] 0 0) samplePaths, constRand 0, [])
    rfl (by decide) rfl rfl ⟨rfl, rfl, rfl, by decide⟩

/-- C20: in `rotate d`, if the desired mode differs from the mode the composite reports
and the mode-set fails, `rotate` returns at once: the mode-set is the only call issued, no
facing is pushed, and the composite is left as the failed mode-set left it; for a
composite whose mode-set does not touch the facing, the reported facing is the one from
before `rotate`, whether or not it differs from `d`. -/
theorem rotate_failed_modeset_skips_facing (E : D2Enum) (co : CompositeOps C T)
    (mo : MapEntityOps M P T) (v : NPC C M P) (d : Int) (e : Error)
    (hdiff : E.modeString (desiredMode E mo v.mapEntity) ≠ co.GetAnimationMode v.composite)
    (hfail : (co.SetMode v.composite (desiredMode E mo v.mapEntity)
      (co.GetWeaponClass v.composite)).2 = some e) :
    (NPC.rotate E co mo v d).2 =
      [Call.SetMode v.composite (desiredMode E mo v.mapEntity)
        (co.GetWeaponClass v.composite)] ∧
    (NPC.rotate E co mo v d).1.composite =
      (co.SetMode v.composite (desiredMode E mo v.mapEntity)
        (co.GetWeaponClass v.composite)).1 ∧
    ((∀ c m wc, co.GetDirection (co.SetMode c m wc).1 = co.GetDirection c) →
      co.GetDirection (NPC.rotate E co mo v d).1.composite = co.GetDirection v.composite) := by
  have hc : (NPC.rotate E co mo v d).1.composite =
      (co.SetMode v.composite (desiredMode E mo v.mapEntity)
        (co.GetWeaponClass v.composite)).1 := by
    rw [rotate_composite, if_pos hdiff, hfail]
    simp
  refine ⟨?_, hc, fun hlaw => by rw [hc, hlaw]⟩
  rw [rotate_calls, if_pos hdiff, hfail]
  simp

/-- Witness for C20: a heading change to facing 3 on an NPC under way whose composite
reports the neutral mode and facing 0 and refuses the mode-set. -/
theorem rotate_failed_modeset_skips_facing_witness :
    fakeComposite.GetDirection jammedNPC.composite ≠ 3 ∧
    (NPC.rotate stdEnum fakeComposite fakeMotion jammedNPC 3).2 =
      [Call.SetMode jammedNPC.composite (desiredMode stdEnum fakeMotion jammedNPC.mapEntity)
        (fakeComposite.GetWeaponClass jammedNPC.composite)] ∧
    (NPC.rotate stdEnum fakeComposite fakeMotion jammedNPC 3).1.composite =
      (fakeComposite.SetMode jammedNPC.composite
        (desiredMode stdEnum fakeMotion jammedNPC.mapEntity)
        (fakeComposite.GetWeaponClass jammedNPC.composite)).1 ∧
    ((∀ c m wc, fakeComposite.GetDirection (fakeComposite.SetMode c m wc).1
        = fakeComposite.GetDirection c) →
      fakeComposite.GetDirection
          (NPC.rotate stdEnum fakeComposite fakeMotion jammedNPC 3).1.composite
        = fakeComposite.GetDirection jammedNPC.composite) :=
  ⟨by decide,
    rotate_failed_modeset_skips_facing stdEnum fakeComposite fakeMotion jammedNPC 3
      "set mode failed" (by decide) rfl⟩

end D2MapEntity
